import Mathlib

/-!
Verification development for the wegathon travel-planner backend
(`python-backend/app`).  The Python services are shallowly embedded:
JSON values become the inductive `JVal`, Python dict/list operations become
functions on `JVal`, fallible code returns `Except`/`Option`, and the
stateful pool/cache components become explicit state-passing functions or
small-step transition systems.  Theorems at the end of the file settle the
spec claims against these embeddings.
-/

/-- An exact rational, standing in for Python floats.  Kept normalized
(coprime numerator/denominator, positive denominator) by construction so
that structural equality coincides with numeric equality; all operations
reduce inside the kernel. -/
structure PyNum where
  num : Int
  den : Nat
  deriving DecidableEq, Repr

namespace PyNum

/-- Build a normalized fraction from a numerator and a positive
denominator. -/
def norm (n : Int) (d : Nat) : PyNum :=
  let g := Nat.gcd n.natAbs d
  ⟨Int.tdiv n (g : Int), d / g⟩

def ofInt (n : Int) : PyNum := ⟨n, 1⟩

def neg (a : PyNum) : PyNum := ⟨-a.num, a.den⟩

/-- `a * 10 ^ k`. -/
def mulPow10 (a : PyNum) (k : Nat) : PyNum := norm (a.num * (10 ^ k : Nat)) a.den

/-- `a / 10 ^ k`. -/
def divPow10 (a : PyNum) (k : Nat) : PyNum := norm a.num (a.den * 10 ^ k)

/-- `a * 2 ^ k`. -/
def mulPow2 (a : PyNum) (k : Nat) : PyNum := norm (a.num * (2 ^ k : Nat)) a.den

/-- `a >= c` against an integer threshold. -/
def geInt (a : PyNum) (c : Int) : Bool := a.num ≥ c * (a.den : Int)

/-- `int(a)`: truncation toward zero. -/
def trunc (a : PyNum) : Int :=
  if a.num ≥ 0 then (a.num.toNat / a.den : Nat) else -((((-a.num).toNat) / a.den : Nat))

end PyNum

/-- A Python/JSON value.  Arrays and objects are encoded as inline chains
(`anil`/`acons`, `onil`/`ocons`) so that the type is a plain (non-nested)
inductive with decidable equality and kernel-computable functions.
Numbers keep Python's int/float distinction (`i` vs `f`); floats are
modelled as exact rationals (`PyNum`). -/
inductive JVal where
  | null : JVal
  | b (x : Bool) : JVal
  | i (x : Int) : JVal
  | f (x : PyNum) : JVal
  | s (x : String) : JVal
  | anil : JVal
  | acons (hd tl : JVal) : JVal
  | onil : JVal
  | ocons (k : String) (v tl : JVal) : JVal
  deriving DecidableEq, Repr, Inhabited

namespace JVal

/-- Build an array value from a Lean list. -/
def jarr : List JVal → JVal
  | [] => .anil
  | v :: rest => .acons v (jarr rest)

/-- Build an object value from a Lean association list. -/
def jobj : List (String × JVal) → JVal
  | [] => .onil
  | (k, v) :: rest => .ocons k v (jobj rest)

/-- The elements of an array value (empty for non-arrays). -/
def aElems : JVal → List JVal
  | .acons hd tl => hd :: aElems tl
  | _ => []

/-- The key-value pairs of an object value (empty for non-objects). -/
def oPairs : JVal → List (String × JVal)
  | .ocons k v tl => (k, v) :: oPairs tl
  | _ => []

/-- `isinstance(v, list)`. -/
def isArr : JVal → Bool
  | .anil => true
  | .acons _ _ => true
  | _ => false

/-- `isinstance(v, dict)`. -/
def isObj : JVal → Bool
  | .onil => true
  | .ocons _ _ _ => true
  | _ => false

/-- `isinstance(v, str)`. -/
def isStr : JVal → Bool
  | .s _ => true
  | _ => false

/-- Python truthiness: `bool(v)`. -/
def truthy : JVal → Bool
  | .null => false
  | .b x => x
  | .i n => n ≠ 0
  | .f q => q.num ≠ 0
  | .s t => t ≠ ""
  | .anil => false
  | .acons _ _ => true
  | .onil => false
  | .ocons _ _ _ => true

/-- `a or b` in Python (value-returning short-circuit or). -/
def pyOr (a b : JVal) : JVal := if truthy a then a else b

/-- Dict lookup `d.get(k)`: `None` when the key is absent.  The embedded
code only calls this on values known to be dicts. -/
def get (j : JVal) (k : String) : JVal :=
  match j with
  | .ocons k1 v tl => if k1 = k then v else get tl k
  | _ => .null

/-- Dict lookup with default, `d.get(k, dflt)`. -/
def getD (j : JVal) (k : String) (dflt : JVal) : JVal :=
  match j with
  | .ocons k1 v tl => if k1 = k then v else getD tl k dflt
  | _ => dflt

/-- Key membership `k in d`. -/
def hasKey (j : JVal) (k : String) : Bool :=
  match j with
  | .ocons k1 _ tl => if k1 = k then true else hasKey tl k
  | _ => false

/-- Dict item assignment `d[k] = v`: replaces in place if the key exists,
otherwise appends the new key at the end (Python insertion order). -/
def setKey (j : JVal) (k : String) (v : JVal) : JVal :=
  match j with
  | .ocons k1 v1 tl =>
    if k1 = k then .ocons k1 v tl else .ocons k1 v1 (setKey tl k v)
  | .onil => .ocons k v .onil
  | other => other

/-- `d.setdefault(k, v)` restricted to its effect on the dict (the
expression value is unused by the embedded code). -/
def setdefault (j : JVal) (k : String) (v : JVal) : JVal :=
  if hasKey j k then j else setKey j k v

end JVal

open JVal

/-- Characters kept by `re.sub(r'[^\d.]', '', s)`: ASCII digits and dots.
(Python `\d` also matches some Unicode digits; the repository only feeds
it currency strings, where this coincides.) -/
def stripNonDigitDot (t : String) : String :=
  String.mk (t.toList.filter (fun c => c.isDigit || c = '.'))

/-- Whitespace for Python `str.strip()` (ASCII forms). -/
def isPySpace (c : Char) : Bool :=
  c = ' ' ∨ c = '\t' ∨ c = '\n' ∨ c = '\r' ∨ c = Char.ofNat 11 ∨ c = Char.ofNat 12

/-- `s.strip()` on a character list. -/
def trimChars (cs : List Char) : List Char :=
  ((cs.dropWhile isPySpace).reverse.dropWhile isPySpace).reverse

/-- `s.strip()`. -/
def pyStrip (t : String) : String := String.mk (trimChars t.toList)

/-- `s.lower()` (ASCII; the Unicode lowerings Python performs beyond
ASCII never match the tables they are compared against here). -/
def lowerAscii (t : String) : String := String.mk (t.toList.map Char.toLower)

/-- Split a character list on a separator character. -/
def splitOnChar (c : Char) : List Char → List (List Char)
  | [] => [[]]
  | x :: rest =>
    match splitOnChar c rest with
    | hd :: tl => if x = c then [] :: hd :: tl else (x :: hd) :: tl
    | [] => [[x]]

/-- `p` is a prefix of `l`. -/
def listPrefix : List Char → List Char → Bool
  | [], _ => true
  | _ :: _, [] => false
  | p :: ps, x :: xs => if p = x then listPrefix ps xs else false

/-- `needle in hay` for strings (substring search). -/
def containsSub (needle : List Char) : (hay : List Char) → Bool
  | [] => listPrefix needle []
  | x :: xs => if listPrefix needle (x :: xs) then true else containsSub needle xs

/-- The natural number denoted by a digit string. -/
def natOfDigits (cs : List Char) : Nat :=
  cs.foldl (fun acc c => acc * 10 + (c.toNat - 48)) 0

/-- Parse an optional-sign digit string as `int(s)` does (surrounding
whitespace allowed, at least one digit, no dots).  Underscore separators
accepted by Python are not modelled; the repository never feeds them. -/
def parsePyInt (t : String) : Option Int :=
  let chars := trimChars t.toList
  let (sign, rest) :=
    match chars with
    | '-' :: r => ((-1 : Int), r)
    | '+' :: r => ((1 : Int), r)
    | r => ((1 : Int), r)
  if rest ≠ [] ∧ rest.all Char.isDigit then
    some (sign * (natOfDigits rest : Int))
  else
    none

/-- Digits before an optional dot and digits after it, as a rational. -/
def decimalOfParts (ip fp : List Char) : PyNum :=
  PyNum.norm ((natOfDigits ip * 10 ^ fp.length + natOfDigits fp : Nat) : Int) (10 ^ fp.length)

/-- Parse a string as `float(s)` does for ordinary decimal literals:
optional surrounding whitespace, optional sign, digits with at most one
dot (at least one digit overall), optional exponent.  Python's `inf`,
`nan` and underscore forms are not modelled; the repository never feeds
them. -/
def parsePyFloat (t : String) : Option PyNum :=
  let chars := trimChars t.toList
  let (isNeg, rest) :=
    match chars with
    | '-' :: r => (true, r)
    | '+' :: r => (false, r)
    | r => (false, r)
  let (mant, rest2) := rest.span (fun c => c.isDigit || c = '.')
  let ip := mant.takeWhile (fun c => c ≠ '.')
  let rest3 := mant.drop ip.length
  let fp := if rest3.headD ' ' = '.' then rest3.drop 1 else rest3
  -- a valid mantissa has at most one dot and at least one digit
  if mant = [] ∨ ¬ fp.all Char.isDigit ∨ (ip = [] ∧ fp = []) then
    none
  else
    let mag := decimalOfParts ip fp
    let base := if isNeg then mag.neg else mag
    match rest2 with
    | [] => some base
    | e :: er =>
      if e = 'e' ∨ e = 'E' then
        let (esign, ed) :=
          match er with
          | '-' :: r => (true, r)
          | '+' :: r => (false, r)
          | r => (false, r)
        if ed ≠ [] ∧ ed.all Char.isDigit then
          let ex : Nat := natOfDigits ed
          some (if esign then base.divPow10 ex else base.mulPow10 ex)
        else none
      else none

/-- `float(v)` for non-string values: numbers and bools convert, anything
else is a `TypeError` (`none` here; the callers catch it). -/
def pyFloatVal : JVal → Option PyNum
  | .i n => some (PyNum.ofInt n)
  | .f q => some q
  | .b x => some (PyNum.ofInt (if x then 1 else 0))
  | _ => none

/-- `int(v)`: ints stay, floats truncate toward zero, bools become 0/1,
strings parse strictly, everything else raises (modelled as `.error`). -/
def pyIntVal : JVal → Except String Int
  | .i n => .ok n
  | .f q => .ok q.trunc
  | .b x => .ok (if x then 1 else 0)
  | .s t =>
    match parsePyInt t with
    | some n => .ok n
    | none => .error "ValueError: invalid literal for int"
  | _ => .error "TypeError: int argument must be a number or string"

/-- The part of a string before the first occurrence of `c`
(`s.split(c)[0]`). -/
def beforeFirst (t : String) (c : Char) : String :=
  String.mk (t.toList.takeWhile (fun x => x ≠ c))

/-- Index of the first occurrence of `c` (`s.find(c)`), `none` for -1. -/
def sFind (t : String) (c : Char) : Option Nat :=
  t.toList.findIdx? (fun x => x = c)

/-- Index of the last occurrence of `c` (`s.rfind(c)`), `none` for -1. -/
def sRFind (t : String) (c : Char) : Option Nat :=
  match (t.toList.reverse.findIdx? (fun x => x = c)) with
  | some k => some (t.toList.length - 1 - k)
  | none => none

/-- Substring `s[a : b]` on character indices. -/
def sliceStr (t : String) (a b : Nat) : String :=
  String.mk ((t.toList.drop a).take (b - a))

/-! ### Gregorian calendar arithmetic (models Python `datetime.strptime`,
`timedelta`, `strftime` for the `%Y-%m-%d` format) -/

def isLeap (y : Int) : Bool :=
  (y % 4 = 0 ∧ y % 100 ≠ 0) ∨ y % 400 = 0

def daysInMonth (y : Int) (m : Nat) : Nat :=
  if m = 2 then (if isLeap y then 29 else 28)
  else if m = 4 ∨ m = 6 ∨ m = 9 ∨ m = 11 then 30
  else 31

/-- Days since 1970-01-01 of a proleptic-Gregorian civil date
(Hinnant's algorithm, with floor division). -/
def daysFromCivil (y : Int) (m d : Nat) : Int :=
  let y1 : Int := if m ≤ 2 then y - 1 else y
  let era : Int := Int.ediv y1 400
  let yoe : Int := y1 - era * 400
  let mp : Int := if m > 2 then (m : Int) - 3 else (m : Int) + 9
  let doy : Int := Int.ediv (153 * mp + 2) 5 + (d : Int) - 1
  let doe : Int := yoe * 365 + Int.ediv yoe 4 - Int.ediv yoe 100 + doy
  era * 146097 + doe - 719468

/-- Inverse of `daysFromCivil`. -/
def civilFromDays (z0 : Int) : Int × Nat × Nat :=
  let z : Int := z0 + 719468
  let era : Int := Int.ediv z 146097
  let doe : Int := z - era * 146097
  let yoe : Int :=
    Int.ediv (doe - Int.ediv doe 1460 + Int.ediv doe 36524 - Int.ediv doe 146096) 365
  let y : Int := yoe + era * 400
  let doy : Int := doe - (365 * yoe + Int.ediv yoe 4 - Int.ediv yoe 100)
  let mp : Int := Int.ediv (5 * doy + 2) 153
  let d : Int := doy - Int.ediv (153 * mp + 2) 5 + 1
  let m : Int := if mp < 10 then mp + 3 else mp - 9
  (if m ≤ 2 then y + 1 else y, m.toNat, d.toNat)

/-- `datetime.strptime(t, "%Y-%m-%d")`: three dash-separated all-digit
fields, month and day range-checked against the calendar. -/
def parseYMD (t : String) : Option (Int × Nat × Nat) :=
  match (splitOnChar '-' t.toList).map String.mk with
  | [ys, ms, ds] =>
    let okPart := fun (p : String) (maxLen : Nat) =>
      p.toList ≠ [] ∧ p.toList.all Char.isDigit ∧ p.toList.length ≤ maxLen
    if okPart ys 4 ∧ okPart ms 2 ∧ okPart ds 2 then
      let y : Int := (natOfDigits ys.toList : Int)
      let m := natOfDigits ms.toList
      let d := natOfDigits ds.toList
      if 1 ≤ m ∧ m ≤ 12 ∧ 1 ≤ d ∧ d ≤ daysInMonth y m then
        some (y, m, d)
      else none
    else none
  | _ => none

def padZero (n : Nat) (width : Nat) : String :=
  let digits := toString n
  String.mk (List.replicate (width - digits.length) '0') ++ digits

/-- `dt.strftime("%Y-%m-%d")`. -/
def formatYMD (y : Int) (m d : Nat) : String :=
  padZero y.toNat 4 ++ "-" ++ padZero m 2 ++ "-" ++ padZero d 2

/-- `dt + timedelta(days=k)`. -/
def addDays (y : Int) (m d : Nat) (k : Int) : Int × Nat × Nat :=
  civilFromDays (daysFromCivil y m d + k)

/-! ### A JSON parser modelling `json.loads`.

Fuel-based recursive descent over the character list; the fuel passed by
`jsonLoads` exceeds any possible nesting so it never runs out on real
inputs.  Leading-zero rejection and a few exotic escapes of the strict
JSON grammar are not modelled; the repository's claims only exercise the
parser on ordinary values. -/

def isJsonWs (c : Char) : Bool :=
  c = ' ' ∨ c = '\t' ∨ c = '\n' ∨ c = '\r'

def skipWs (cs : List Char) : List Char := cs.dropWhile isJsonWs

def hexVal (c : Char) : Nat :=
  if c.isDigit then c.toNat - '0'.toNat
  else if 'a' ≤ c ∧ c ≤ 'f' then c.toNat - 'a'.toNat + 10
  else if 'A' ≤ c ∧ c ≤ 'F' then c.toNat - 'A'.toNat + 10
  else 0

def isHexDigit (c : Char) : Bool :=
  c.isDigit ∨ ('a' ≤ c ∧ c ≤ 'f') ∨ ('A' ≤ c ∧ c ≤ 'F')

/-- Parse the body of a JSON string (after the opening quote), returning
the decoded characters and the remainder after the closing quote. -/
def parseStrChars : List Char → Option (List Char × List Char)
  | '"' :: rest => some ([], rest)
  | '\\' :: 'u' :: a :: b2 :: c :: d :: rest =>
    if isHexDigit a ∧ isHexDigit b2 ∧ isHexDigit c ∧ isHexDigit d then
      match parseStrChars rest with
      | some (out, rem) =>
        some (Char.ofNat (((hexVal a * 16 + hexVal b2) * 16 + hexVal c) * 16 + hexVal d) :: out, rem)
      | none => none
    else none
  | '\\' :: e :: rest =>
    let dec : Option Char :=
      if e = '"' then some '"'
      else if e = '\\' then some '\\'
      else if e = '/' then some '/'
      else if e = 'b' then some (Char.ofNat 8)
      else if e = 'f' then some (Char.ofNat 12)
      else if e = 'n' then some '\n'
      else if e = 'r' then some '\r'
      else if e = 't' then some '\t'
      else none
    match dec with
    | some c =>
      match parseStrChars rest with
      | some (out, rem) => some (c :: out, rem)
      | none => none
    | none => none
  | c :: rest =>
    match parseStrChars rest with
    | some (out, rem) => some (c :: out, rem)
    | none => none
  | [] => none

/-- Parse a JSON number at the head of the input. -/
def parseJsonNumber (cs : List Char) : Option (JVal × List Char) :=
  let (isNeg, r1) :=
    match cs with
    | '-' :: r => (true, r)
    | r => (false, r)
  let ip := r1.takeWhile Char.isDigit
  let r2 := r1.drop ip.length
  if ip = [] then none
  else
    let withSign := fun (a : PyNum) => if isNeg then a.neg else a
    match r2 with
    | '.' :: r3 =>
      let fp := r3.takeWhile Char.isDigit
      let r4 := r3.drop fp.length
      if fp = [] then none
      else
        let base := withSign (decimalOfParts ip fp)
        match r4 with
        | 'e' :: r5 => parseJsonExp base r5
        | 'E' :: r5 => parseJsonExp base r5
        | _ => some (.f base, r4)
    | 'e' :: r3 => parseJsonExp (withSign (decimalOfParts ip [])) r3
    | 'E' :: r3 => parseJsonExp (withSign (decimalOfParts ip [])) r3
    | _ =>
      some (.i ((if isNeg then -1 else 1) * (natOfDigits ip : Int)), r2)
where
  parseJsonExp (base : PyNum) (r : List Char) : Option (JVal × List Char) :=
    let (eneg, r1) :=
      match r with
      | '-' :: t => (true, t)
      | '+' :: t => (false, t)
      | t => (false, t)
    let ed := r1.takeWhile Char.isDigit
    if ed = [] then none
    else
      let ex := natOfDigits ed
      some (.f (if eneg then base.divPow10 ex else base.mulPow10 ex), r1.drop ed.length)

mutual

/-- Parse one JSON value at the head of the input. -/
def parseJVal (fuel : Nat) (cs : List Char) : Option (JVal × List Char) :=
  match fuel with
  | 0 => none
  | fuel + 1 =>
    match skipWs cs with
    | 'n' :: 'u' :: 'l' :: 'l' :: rest => some (.null, rest)
    | 't' :: 'r' :: 'u' :: 'e' :: rest => some (.b true, rest)
    | 'f' :: 'a' :: 'l' :: 's' :: 'e' :: rest => some (.b false, rest)
    | '"' :: rest =>
      match parseStrChars rest with
      | some (out, rem) => some (.s (String.mk out), rem)
      | none => none
    | '[' :: rest =>
      (match skipWs rest with
       | ']' :: rem => some (.anil, rem)
       | other => parseArrItems fuel other)
    | '\x7b' :: rest =>
      (match skipWs rest with
       | '\x7d' :: rem => some (.onil, rem)
       | other => parseObjItems fuel other)
    | other => parseJsonNumber other

/-- Parse the elements of a non-empty JSON array (after `[`). -/
def parseArrItems (fuel : Nat) (cs : List Char) : Option (JVal × List Char) :=
  match fuel with
  | 0 => none
  | fuel + 1 =>
    match parseJVal fuel cs with
    | some (v, rem) =>
      (match skipWs rem with
       | ',' :: rem2 =>
         (match parseArrItems fuel rem2 with
          | some (tlv, rem3) => some (.acons v tlv, rem3)
          | none => none)
       | ']' :: rem2 => some (.acons v .anil, rem2)
       | _ => none)
    | none => none

/-- Parse the members of a non-empty JSON object (after the brace). -/
def parseObjItems (fuel : Nat) (cs : List Char) : Option (JVal × List Char) :=
  match fuel with
  | 0 => none
  | fuel + 1 =>
    match skipWs cs with
    | '"' :: rest =>
      (match parseStrChars rest with
       | some (key, rem) =>
         (match skipWs rem with
          | ':' :: rem2 =>
            (match parseJVal fuel rem2 with
             | some (v, rem3) =>
               (match skipWs rem3 with
                | ',' :: rem4 =>
                  (match parseObjItems fuel rem4 with
                   | some (tlv, rem5) => some (.ocons (String.mk key) v tlv, rem5)
                   | none => none)
                | '\x7d' :: rem4 => some (.ocons (String.mk key) v .onil, rem4)
                | _ => none)
             | none => none)
          | _ => none)
       | none => none)
    | _ => none

end

/-- `json.loads(t)`: parse the whole string, allowing only trailing
whitespace. -/
def jsonLoads (t : String) : Option JVal :=
  match parseJVal (t.toList.length + 2) t.toList with
  | some (v, rest) => if skipWs rest = [] then some v else none
  | none => none

/-! ### Embedding of `app/services/planner.py` -/

namespace Planner

/-- `_as_list(val)`. -/
def asList : JVal → List JVal
  | .null => []
  | .anil => []
  | .acons hd tl => hd :: aElems tl
  | v => [v]

/-- Left-to-right fail-fast map over a list of values (the behaviour of
a Python list comprehension whose body can raise). -/
def mapExcept (g : JVal → Except String JVal) : List JVal → Except String (List JVal)
  | [] => .ok []
  | x :: r => do
    let y ← g x
    let ys ← mapExcept g r
    .ok (y :: ys)

/-- `str(v)` (fuel-bounded; Python's float and container `repr` are
approximated — the claims never evaluate it on those shapes). -/
def pyStr : Nat → JVal → String
  | _, .null => "None"
  | _, .b true => "True"
  | _, .b false => "False"
  | _, .i n => toString n
  | _, .f q => toString q.num ++ (if q.den = 1 then ".0" else "/" ++ toString q.den)
  | _, .s t => t
  | 0, _ => ""
  | _ + 1, .anil => "[]"
  | fuel + 1, .acons hd tl =>
    "[" ++ String.intercalate ", " ((hd :: aElems tl).map (pyStr fuel)) ++ "]"
  | _ + 1, .onil => "\x7b\x7d"
  | fuel + 1, .ocons k v tl =>
    "\x7b" ++ String.intercalate ", "
      (((k, v) :: oPairs tl).map (fun kv => kv.1 ++ ": " ++ pyStr fuel kv.2)) ++ "\x7d"

/-- The `city_translations` table inside `normalize_to_contract`
(byte-for-byte from the source, including its mojibake keys). -/
def cityTranslations : List (String × String) :=
  [("istanbul", "Istanbul"), ("iÌ‡stanbul", "Istanbul"),
   ("ankara", "Ankara"), ("izmir", "Izmir"), ("iÌ‡zmir", "Izmir"),
   ("antalya", "Antalya"), ("roma", "Rome"), ("milano", "Milan"),
   ("venedik", "Venice"), ("floransa", "Florence"), ("napoli", "Naples"),
   ("paris", "Paris"), ("londra", "London"), ("barselona", "Barcelona"),
   ("madrid", "Madrid"), ("berlin", "Berlin"), ("mÃ¼nih", "Munich"),
   ("viyana", "Vienna"), ("prag", "Prague"), ("amsterdam", "Amsterdam"),
   ("brÃ¼ksel", "Brussels"), ("cenevre", "Geneva"),
   ("zÃ¼rih", "Zurich")]

/-- `normalize_city_name(city_name)`: empty for falsy values, a table
lookup for strings, and an uncaught `AttributeError` (`.strip` on a
non-string) for any other truthy value. -/
def normalizeCityName (cityName : JVal) : Except String String :=
  if ¬ truthy cityName then .ok ""
  else
    match cityName with
    | .s t =>
      let normalized := pyStrip t
      let lowerName := lowerAscii normalized
      .ok (((cityTranslations.lookup lowerName).getD normalized))
    | _ => .error "AttributeError: strip on non-string city name"

/-- `ensure_segment_fields(seg)`; the `int(...)` call for
`durationMinutes` can raise. -/
def ensureSegmentFields (seg : JVal) : Except String JVal := do
  let dur ← pyIntVal (pyOr (seg.get "durationMinutes") (pyOr (seg.get "duration") (.i 0)))
  .ok (jobj
    [("fromIata", pyOr (seg.get "fromIata") (pyOr (seg.get "from") (.s ""))),
     ("toIata", pyOr (seg.get "toIata") (pyOr (seg.get "to") (.s ""))),
     ("departISO", pyOr (seg.get "departISO") (pyOr (seg.get "depart") (.s ""))),
     ("arriveISO", pyOr (seg.get "arriveISO") (pyOr (seg.get "arrival") (.s ""))),
     ("airline", pyOr (seg.get "airline") (.s "")),
     ("flightNumber", pyOr (seg.get "flightNumber") (pyOr (seg.get "number") (.s ""))),
     ("durationMinutes", .i dur),
     ("cabin", pyOr (seg.get "cabin") .null)])

/-- The price-normalization block shared verbatim by `coerce_flight`
(for `price`) and `coerce_hotel` (for `priceTotal`): strings are stripped
to digits and dots then parsed, other values go through `float(...)`,
failures become `None`. -/
def coercePrice (price : JVal) : JVal :=
  match price with
  | .s t =>
    let cleaned := stripNonDigitDot t
    if cleaned = "" then .null
    else
      match parsePyFloat cleaned with
      | some q => .f q
      | none => .null
  | .null => .null
  | v =>
    match pyFloatVal v with
    | some q => .f q
    | none => .null

/-- The rating-normalization block of `coerce_hotel`: strings containing
a slash parse their numerator, other strings go through `float(...)`,
non-`None` non-strings go through `float(...)`, failures become `None`. -/
def coerceRating (rating : JVal) : JVal :=
  match rating with
  | .s t =>
    if t.toList.contains '/' then
      match parsePyFloat (beforeFirst t '/') with
      | some q => .f q
      | none => .null
    else
      match parsePyFloat t with
      | some q => .f q
      | none => .null
  | .null => .null
  | v =>
    match pyFloatVal v with
    | some q => .f q
    | none => .null

/-- The key list scanned by `coerce_flight` when no `segments` are given. -/
def segKeys : List String :=
  ["fromIata", "toIata", "departISO", "arriveISO", "airline",
   "flightNumber", "durationMinutes", "cabin"]

/-- `coerce_flight(val)`. -/
def coerceFlight (val : JVal) : Except String JVal :=
  if ¬ isObj val then .ok .null
  else do
    let segsIn0 := asList (val.get "segments")
    let segsIn :=
      if segsIn0 = [] then
        let seg := (segKeys.filter (fun k => val.hasKey k)).foldl
          (fun acc k => acc.setKey k (val.get k)) JVal.onil
        if truthy seg then [seg] else []
      else segsIn0
    let segs ← mapExcept (fun st => ensureSegmentFields (if isObj st then st else .onil)) segsIn
    let provider := pyOr (val.get "provider") (pyOr (val.get "airline") (.s "unknown"))
    .ok (jobj
      [("provider", provider), ("currency", val.get "currency"),
       ("price", coercePrice (val.get "price")), ("segments", jarr segs),
       ("bookingUrl", val.get "bookingUrl")])

/-- `coerce_hotel(val)`. -/
def coerceHotel (val : JVal) : JVal :=
  if ¬ isObj val then .null
  else
    jobj
      [("provider", pyOr (val.get "provider") (.s "unknown")),
       ("name", pyOr (val.get "name") (pyOr (val.get "hotel") (.s ""))),
       ("address", val.get "address"),
       ("checkInISO", pyOr (val.get "checkInISO") (pyOr (val.get "checkIn") (.s ""))),
       ("checkOutISO", pyOr (val.get "checkOutISO") (pyOr (val.get "checkOut") (.s ""))),
       ("priceTotal", coercePrice (pyOr (val.get "priceTotal") (val.get "price"))),
       ("currency", val.get "currency"),
       ("rating", coerceRating (val.get "rating")),
       ("amenities", val.get "amenities"),
       ("neighborhood", val.get "neighborhood"),
       ("bookingUrl", val.get "bookingUrl")]

/-- The `label_map` table inside `coerce_block` (byte-for-byte from the
source, including its mojibake keys). -/
def labelMap : List (String × String) :=
  [("sabah", "morning"), ("Ã¶ÄŸleden sonra", "afternoon"),
   ("Ã¶ÄŸle", "afternoon"), ("akÅŸam", "evening"),
   ("gece", "late-night"), ("check-in", "check-in"), ("check-out", "check-out"),
   ("transit", "transit"), ("ulaÅŸÄ±m", "transit"),
   ("varÄ±ÅŸ", "transit"),
   ("dÃ¶nÃ¼ÅŸ", "transit")]

def validLabels : List String :=
  ["morning", "afternoon", "evening", "late-night", "transit", "check-in", "check-out"]

/-- The label branch of `coerce_block` for string labels. -/
def coerceLabelStr (t : String) : JVal :=
  let labelLower := pyStrip (lowerAscii t)
  match labelMap.lookup labelLower with
  | some mapped => .s mapped
  | none =>
    if t.toList.contains ':' ∧ t.toList.length ≤ 5 then
      match parsePyInt (beforeFirst t ':') with
      | some hour =>
        if hour < 6 then .s "late-night"
        else if hour < 12 then .s "morning"
        else if hour < 18 then .s "afternoon"
        else .s "evening"
      | none => .s "morning"
    else if ¬ validLabels.contains labelLower then .s "morning"
    else .s t

/-- The per-item normalization loop of `coerce_block`. -/
def coerceBlockItem (item : JVal) : JVal :=
  match item with
  | .s t =>
    jobj [("type", .s "activity"),
          ("data", jobj [("provider", .s "manual"), ("title", .s t), ("notes", .s t)])]
  | v =>
    if isObj v then
      if v.hasKey "type" ∧ v.hasKey "data" then v
      else
        jobj [("type", v.getD "type" (.s "activity")),
              ("data", v.getD "data"
                (jobj [("provider", .s "manual"),
                       ("title", pyOr (v.get "text") (pyOr (v.get "title") (.s (pyStr 32 v)))),
                       ("notes", pyOr (v.get "description") (v.get "notes"))]))]
    else
      jobj [("type", .s "activity"),
            ("data", jobj [("provider", .s "manual"), ("title", .s (pyStr 32 v)),
                           ("notes", .null)])]

/-- The label normalization of `coerce_block`: strings go through
`coerceLabelStr`, any other truthy value passes through. -/
def labelStep (label0 : JVal) : JVal :=
  match label0 with
  | .s t => coerceLabelStr t
  | v => v

/-- `coerce_block(b)`.  Note the non-dict branch returns a dict without a
`notes` key. -/
def coerceBlock (bv : JVal) : JVal :=
  if ¬ isObj bv then jobj [("label", .s "transit"), ("items", .anil)]
  else
    let label := labelStep (pyOr (bv.get "label") (pyOr (bv.get "time") (.s "morning")))
    let items := (asList (bv.get "items")).map coerceBlockItem
    jobj [("label", label), ("items", jarr items), ("notes", bv.get "notes")]

/-- `coerce_day(d)`.  Note the non-dict branch returns a dict without a
`dailyTips` key. -/
def coerceDay (dv : JVal) : JVal :=
  if ¬ isObj dv then jobj [("dateISO", .s ""), ("blocks", .anil)]
  else
    let dateISO := pyOr (dv.get "dateISO") (pyOr (dv.get "date") (.s ""))
    let blocks := (asList (pyOr (dv.get "blocks")
      (pyOr (dv.get "timeline") (dv.get "blocksList")))).map coerceBlock
    jobj [("dateISO", dateISO), ("blocks", jarr blocks), ("dailyTips", dv.get "dailyTips")]

/-- The weather-normalization loop body (for dict entries; non-dict
entries are skipped by the caller). -/
def weatherEntry (parsed w : JVal) : JVal :=
  jobj
    [("dateISO", pyOr (w.get "dateISO") (pyOr (w.get "date")
        (pyOr (parsed.get "startDateISO") (.s "")))),
     ("highC", pyOr (w.get "highC") (pyOr (w.get "high") .null)),
     ("lowC", pyOr (w.get "lowC") (pyOr (w.get "low") .null)),
     ("precipitationChance", pyOr (w.get "precipitationChance")
        (pyOr (w.get "precipChance") .null)),
     ("source", pyOr (w.get "source") (.s "LLM")),
     ("isForecast", .b (truthy (w.getD "isForecast" (.b true))))]

/-- `extract_amount(val)` inside `normalize_to_contract`. -/
def extractAmount (val : JVal) : JVal :=
  if isObj val then
    pyOr (val.get "total") (pyOr (val.get "amount") (val.get "price"))
  else
    match val with
    | .s t =>
      let cleaned := stripNonDigitDot t
      if cleaned = "" then .null
      else
        match parsePyFloat cleaned with
        | some q => .f q
        | none => .null
    | v => v

/-- The `confidence` normalization of `normalize_to_contract`.  Python
bools are instances of `int`, so they take the numeric branch. -/
def coerceConfidence (confidenceRaw : JVal) : String :=
  match confidenceRaw with
  | .i n => if n ≥ 75 then "high" else if n ≥ 50 then "medium" else "low"
  | .f q => if q.geInt 75 then "high" else if q.geInt 50 then "medium" else "low"
  | .b x => if x then "low" else "low"
  | .s t =>
    let cl := lowerAscii t
    if cl = "low" ∨ cl = "medium" ∨ cl = "high" then cl else "low"
  | _ => "low"

/-- The `totalEstimated` normalization of `normalize_to_contract`. -/
def coerceTotalEstimated (pricingSrc : JVal) : JVal :=
  let te := pyOr (pricingSrc.get "totalEstimated") (pricingSrc.get "total")
  if isObj te then te.get "amount"
  else
    match te with
    | .s t =>
      let cleaned := stripNonDigitDot t
      if cleaned = "" then .null
      else
        match parsePyFloat cleaned with
        | some q => .f q
        | none => .null
    | v => v

/-- The `breakdown` normalization of `normalize_to_contract`. -/
def coerceBreakdown (pricingSrc : JVal) : JVal :=
  let bd := pricingSrc.get "breakdown"
  if ¬ isObj bd then
    jobj
      [("flights", extractAmount (pyOr (pricingSrc.get "flights") (pricingSrc.get "flights_try"))),
       ("lodging", extractAmount (pyOr (pricingSrc.get "lodging") (pricingSrc.get "lodging_try"))),
       ("activities", extractAmount (pyOr (pricingSrc.get "activities") (pricingSrc.get "activities_try"))),
       ("transport", extractAmount (pyOr (pricingSrc.get "transport") (pricingSrc.get "transport_try"))),
       ("feesAndTaxes", extractAmount (pyOr (pricingSrc.get "feesAndTaxes") (pricingSrc.get "fees_try")))]
  else
    jobj
      [("flights", extractAmount (bd.get "flights")),
       ("lodging", extractAmount (bd.get "lodging")),
       ("activities", extractAmount (bd.get "activities")),
       ("transport", extractAmount (bd.get "transport")),
       ("feesAndTaxes", extractAmount (bd.get "feesAndTaxes"))]

/-- `isinstance(v, str)` on the head of a list, for the `sources` check. -/
def headIsStr : List JVal → Bool
  | (JVal.s _) :: _ => true
  | _ => false

/-- The `sources` normalization of the metadata block. -/
def coerceSources (sources : JVal) : JVal :=
  if truthy sources ∧ isArr sources ∧ headIsStr (aElems sources) then
    jarr ((aElems sources).map (fun x => jobj [("provider", x)]))
  else sources

/-- `normalize_to_contract(obj)`.  `nowIso` stands for the
`datetime.utcnow().isoformat() + "Z"` timestamp taken at entry.  The
result is `.error` exactly where the Python raises (an uncaught
`AttributeError`/`ValueError`/`TypeError` from `normalize_city_name` or
the `int(...)` in `ensure_segment_fields`). -/
def normalizeToContract (nowIso : String) (obj : JVal) : Except String JVal := do
  let query0 := pyOr (obj.get "query") .onil
  let query := if isObj query0 then query0 else .onil
  let raw := pyOr (query.get "raw") (pyOr (obj.get "prompt") (.s ""))
  let parsed0 := pyOr (query.get "parsed") .onil
  let parsed1 := if isObj parsed0 then parsed0 else .onil
  let originRaw := pyOr (parsed1.get "from") (pyOr (obj.get "from")
    (pyOr (parsed1.get "originCity") (pyOr (parsed1.get "origin") (.s ""))))
  let destRaw := pyOr (parsed1.get "to") (pyOr (obj.get "to")
    (pyOr (parsed1.get "destinationCity") (pyOr (parsed1.get "destination") (.s ""))))
  let oc ← normalizeCityName originRaw
  let parsed2 := parsed1.setdefault "originCity" (.s oc)
  let dc ← normalizeCityName destRaw
  let parsed3 := parsed2.setdefault "destinationCity" (.s dc)
  let parsed4 := parsed3.setdefault "startDateISO" (pyOr (parsed3.get "startDate")
    (pyOr (obj.get "startDate") (pyOr (obj.get "date") (pyOr (obj.get "start_date") (.s "")))))
  let parsed5 := parsed4.setdefault "endDateISO" (pyOr (parsed4.get "endDate")
    (pyOr (obj.get "endDate") (pyOr (obj.get "end_date") (.s ""))))
  let parsed6 := parsed5.setdefault "nights" (pyOr (parsed5.get "nights")
    (pyOr (obj.get "nights") (.i 0)))
  let parsed := parsed6.setdefault "adults" (pyOr (parsed6.get "adults")
    (pyOr (obj.get "adults") (.i 1)))
  let flights0 := pyOr (obj.get "flights") .onil
  let flights := if isObj flights0 then flights0 else .onil
  let outbound ← coerceFlight (pyOr (flights.get "outbound")
    (pyOr (flights.get "go") (flights.get "flight")))
  let inbound ← coerceFlight (pyOr (flights.get "inbound") (flights.get "return"))
  let flightsNorm := jobj
    [("outbound", outbound), ("inbound", inbound),
     ("alternatives", pyOr (jarr (asList (flights.get "alternatives"))) .null)]
  let lodgingSrc0 := pyOr (obj.get "lodging") (pyOr (obj.get "hotel") .onil)
  let lodgingSrc := if isObj lodgingSrc0 then lodgingSrc0 else .onil
  let lodgingNorm := jobj
    [("selected", coerceHotel (pyOr (lodgingSrc.get "selected") lodgingSrc)),
     ("alternatives", pyOr (jarr (asList (lodgingSrc.get "alternatives"))) .null)]
  let transportSrc0 := pyOr (obj.get "transport") .onil
  let transportSrc := if isObj transportSrc0 then transportSrc0 else .onil
  let transportNorm := jobj
    [("localPasses", jarr (asList (transportSrc.get "localPasses"))),
     ("intercity", jarr (asList (transportSrc.get "intercity")))]
  let weatherNorm := jarr (((asList (obj.get "weather")).filter isObj).map (weatherEntry parsed))
  let daysNorm := jarr ((asList (obj.get "days")).map coerceDay)
  let pricingSrc0 := pyOr (obj.get "pricing") .onil
  let pricingSrc := if isObj pricingSrc0 then pricingSrc0 else .onil
  let pricingNorm := jobj
    [("currency", pyOr (pricingSrc.get "currency") (pyOr (obj.get "currency") (.s "USD"))),
     ("breakdown", coerceBreakdown pricingSrc),
     ("totalEstimated", coerceTotalEstimated pricingSrc),
     ("confidence", .s (coerceConfidence (pricingSrc.get "confidence"))),
     ("notes", pyOr (jarr (asList (pricingSrc.get "notes"))) .null)]
  let metadataSrc0 := pyOr (obj.get "metadata") .onil
  let metadataSrc := if isObj metadataSrc0 then metadataSrc0 else .onil
  let metadataNorm := jobj
    [("generatedAtISO", pyOr (metadataSrc.get "generatedAtISO") (.s nowIso)),
     ("sources", pyOr (coerceSources (metadataSrc.get "sources")) .anil),
     ("toolDiagnostics", pyOr (metadataSrc.get "toolDiagnostics") .anil),
     ("warnings", pyOr (metadataSrc.get "warnings") .anil),
     ("revisionOf", pyOr (metadataSrc.get "revisionOf") .null),
     ("planId", pyOr (metadataSrc.get "planId") (.s nowIso))]
  let summary := pyOr (obj.get "summary") (pyOr (obj.get "overview") (.s ""))
  .ok (jobj
    [("query", jobj [("raw", raw), ("parsed", parsed)]),
     ("summary", summary),
     ("flights", flightsNorm),
     ("lodging", lodgingNorm),
     ("transport", transportNorm),
     ("weather", weatherNorm),
     ("days", daysNorm),
     ("pricing", pricingNorm),
     ("metadata", metadataNorm)])

/-- Truthy-or-empty-string: the possible outcomes of an `or`-default
chain ending in `""`. -/
def TOE (v : JVal) : Prop := truthy v = true ∨ v = .s ""

/-- Truthy-or-None: the possible outcomes of an `or`-default chain
ending in `None`. -/
def TON (v : JVal) : Prop := truthy v = true ∨ v = .null

/-- The values on which `normalize_city_name` does not raise: falsy
values and strings. -/
def strOrFalsy (v : JVal) : Bool := !truthy v || isStr v

/-- Whether a key-value chain is a well-formed dict spine (ends in
`onil`).  `setKey` appends new keys only on such spines. -/
def endsOnil : JVal → Bool
  | .ocons _ _ tl => endsOnil tl
  | .onil => true
  | _ => false

/-- A dict is `k`-stable when `setdefault k` can never change it again:
either the key is present, or the spine is malformed and `setKey`
silently no-ops. -/
def sdStable (j : JVal) (k : String) : Bool := j.hasKey k || !endsOnil j

/-- The decidable side condition under which a `normalize_to_contract`
output is a fixed point: every day and block came from a dict (so their
`dailyTips`/`notes` keys survived), a hotel was selected and its
`priceTotal` is not a swallowed falsy value, the pricing `breakdown` and
`totalEstimated` are stable under re-coercion, and the parsed city
fields re-normalize without raising. -/
def idemOK (y : JVal) : Bool :=
  let parsed := (y.get "query").get "parsed"
  let sel := (y.get "lodging").get "selected"
  let pricing := y.get "pricing"
  (asList (y.get "days")).all (fun rd => rd.hasKey "dailyTips" &&
      (asList (rd.get "blocks")).all (fun rb => rb.hasKey "notes")) &&
  truthy sel &&
  (truthy (sel.get "priceTotal") || decide (sel.get "priceTotal" = JVal.null)) &&
  decide (coerceBreakdown pricing = pricing.get "breakdown") &&
  decide (coerceTotalEstimated pricing = pricing.get "totalEstimated") &&
  strOrFalsy (pyOr (parsed.get "from") (pyOr (parsed.get "originCity")
    (pyOr (parsed.get "origin") (JVal.s "")))) &&
  strOrFalsy (pyOr (parsed.get "to") (pyOr (parsed.get "destinationCity")
    (pyOr (parsed.get "destination") (JVal.s ""))))

/-- A concrete well-formed planner payload (used to exercise the
idempotence result). -/
def idemSampleInput : JVal :=
  jobj
    [("days", jarr [jobj [("blocks", jarr [jobj [("items", jarr [.s "walk"])]]),
        ("dailyTips", .s "tip")]]),
     ("lodging", jobj [("selected", jobj [("name", .s "H"), ("priceTotal", .i 100)])]),
     ("pricing", jobj [("totalEstimated", .i 500)])]

/-- `normalize_to_contract` applied to `idemSampleInput` at timestamp
`2025-01-01T00:00:00Z` (checked below). -/
def idemSampleOutput : JVal :=
  jobj
    [("query", jobj [("raw", .s ""),
        ("parsed", jobj [("originCity", .s ""), ("destinationCity", .s ""),
          ("startDateISO", .s ""), ("endDateISO", .s ""), ("nights", .i 0),
          ("adults", .i 1)])]),
     ("summary", .s ""),
     ("flights", jobj [("outbound", .null), ("inbound", .null), ("alternatives", .null)]),
     ("lodging", jobj [("selected", jobj [("provider", .s "unknown"), ("name", .s "H"),
        ("address", .null), ("checkInISO", .s ""), ("checkOutISO", .s ""),
        ("priceTotal", .f ⟨100, 1⟩), ("currency", .null), ("rating", .null),
        ("amenities", .null), ("neighborhood", .null), ("bookingUrl", .null)]),
       ("alternatives", .null)]),
     ("transport", jobj [("localPasses", .anil), ("intercity", .anil)]),
     ("weather", .anil),
     ("days", jarr [jobj [("dateISO", .s ""),
        ("blocks", jarr [jobj [("label", .s "morning"),
          ("items", jarr [jobj [("type", .s "activity"),
            ("data", jobj [("provider", .s "manual"), ("title", .s "walk"),
              ("notes", .s "walk")])]]),
          ("notes", .null)]]),
        ("dailyTips", .s "tip")]]),
     ("pricing", jobj [("currency", .s "USD"),
        ("breakdown", jobj [("flights", .null), ("lodging", .null),
          ("activities", .null), ("transport", .null), ("feesAndTaxes", .null)]),
        ("totalEstimated", .i 500), ("confidence", .s "low"), ("notes", .null)]),
     ("metadata", jobj [("generatedAtISO", .s "2025-01-01T00:00:00Z"),
        ("sources", .anil), ("toolDiagnostics", .anil), ("warnings", .anil),
        ("revisionOf", .null), ("planId", .s "2025-01-01T00:00:00Z")])]

end Planner

namespace Planner

/-- The type-name mapping of `_normalize_block_item_types`. -/
def typeMapping (t : String) : String :=
  if t = "transport" then "transfer"
  else if t = "accommodation" then "lodging"
  else if t = "hotel" then "lodging"
  else if t = "arrival" then "flight"
  else if t = "departure" then "flight"
  else t

/-- `"type" in item` for the item shapes that do not raise: key test on
dicts, membership on lists, substring test on strings. -/
def pyInType : JVal → Except String Bool
  | .ocons k v tl => .ok (JVal.hasKey (.ocons k v tl) "type")
  | .onil => .ok false
  | .anil => .ok false
  | .acons hd tl => .ok ((aElems (.acons hd tl)).contains (.s "type"))
  | .s t => .ok (containsSub "type".toList t.toList)
  | _ => .error "TypeError: argument of type is not iterable"

/-- The per-item body of `_normalize_block_item_types`: when the item has
a `type` entry, rewrite it through `typeMapping`; reading `item["type"]`
on a non-dict raises. -/
def normItemType (item : JVal) : Except String JVal := do
  let tin ← pyInType item
  if tin then
    if isObj item then
      let orig := item.get "type"
      let mapped := match orig with
        | .s t => JVal.s (typeMapping t)
        | v => v
      if mapped ≠ orig then .ok (item.setKey "type" mapped) else .ok item
    else .error "TypeError: item does not support indexing"
  else .ok item

/-- The per-block body of `_normalize_block_item_types`: iterating
`block.get("items", [])` and normalizing each item; a non-dict block
raises on `.get`.  Mutation of the shared `items` list is modelled by
rebuilding the block with the rewritten list. -/
def normBlockTypes (blockv : JVal) : Except String JVal := do
  if ¬ isObj blockv then .error "AttributeError: get on non-dict block"
  else
    let items := blockv.getD "items" .anil
    if isArr items then do
      let items2 ← (aElems items).mapM normItemType
      .ok (if blockv.hasKey "items" then blockv.setKey "items" (jarr items2) else blockv)
    else if items = .null ∨ items.isStr ∨ items.isObj then
      -- iterating a dict or string touches only immutable keys/characters;
      -- `None` raises
      if items = .null then .error "TypeError: NoneType is not iterable"
      else .ok blockv
    else .error "TypeError: items is not iterable"

/-- The per-day body of `_normalize_block_item_types`. -/
def normDayTypes (dayv : JVal) : Except String JVal := do
  if ¬ isObj dayv then .error "AttributeError: get on non-dict day"
  else
    let blocks := dayv.getD "blocks" .anil
    if isArr blocks then do
      let blocks2 ← (aElems blocks).mapM normBlockTypes
      .ok (if dayv.hasKey "blocks" then dayv.setKey "blocks" (jarr blocks2) else dayv)
    else if blocks = .null then .error "TypeError: NoneType is not iterable"
    else if blocks.isStr ∨ blocks.isObj then
      -- the per-block step raises on every string/key element
      if truthy blocks then .error "AttributeError: get on non-dict block"
      else .ok dayv
    else .error "TypeError: blocks is not iterable"

/-- `_normalize_block_item_types(data)`. -/
def normBlockItemTypes (data : JVal) : Except String JVal := do
  let days := data.getD "days" .anil
  if isArr days then do
    let days2 ← (aElems days).mapM normDayTypes
    .ok (if data.hasKey "days" then data.setKey "days" (jarr days2) else data)
  else if days = .null then .error "TypeError: NoneType is not iterable"
  else if days.isStr ∨ days.isObj then
    if truthy days then .error "AttributeError: get on non-dict day"
    else .ok data
  else .error "TypeError: days is not iterable"

/-- `_json_only_guard(text)`: parse directly; on a decode error extract
the outermost brace span and re-parse; the empty-text `ValueError`, a
failing re-parse (`JSONDecodeError`) and a missing brace span
(`ValueError`) all propagate. -/
def jsonOnlyGuard (text : String) : Except String JVal :=
  if text = "" ∨ pyStrip text = "" then .error "ValueError: Empty text received"
  else
    match jsonLoads text with
    | some data => normBlockItemTypes data
    | none =>
      match sFind text '\x7b', sRFind text '\x7d' with
      | some a, some e =>
        let extracted := sliceStr text a (e + 1)
        (match jsonLoads extracted with
         | some data => normBlockItemTypes data
         | none => .error "JSONDecodeError: extracted block does not parse")
      | _, _ => .error "ValueError: No valid JSON found in response"

/-- The string content of a value known to be a string. -/
def asStr : JVal → String
  | .s t => t
  | _ => ""

/-- The `end_turn` handler of `generate` (planner.py lines 1109-1141) for
one text block: guard-parse, normalize, re-enrich when no tool
diagnostics were recorded, validate.  `enrich` and `validate` stand for
the awaited `_enrich_with_mcp` and `TripPlan.model_validate`
collaborators; any `.error` models the Python `raise` that the handler
re-raises. -/
def handleFinalText (enrich validate : JVal → Except String JVal)
    (nowIso raw : String) : Except String JVal := do
  let obj ← jsonOnlyGuard raw
  let obj2 ← normalizeToContract nowIso obj
  let toolDiags := (obj2.getD "metadata" .onil).getD "toolDiagnostics" .anil
  let obj3 ← if ¬ truthy toolDiags then enrich obj2 else .ok obj2
  validate obj3

/-- The fallback plan built when the loop exhausts without a valid plan
(planner.py lines 1213-1225): a fixed skeleton normalized to the
contract, best-effort enrichment (failures swallowed), validation. -/
def fallbackPlan (enrich validate : JVal → Except String JVal)
    (nowIso prompt : String) : Except String JVal := do
  let obj := jobj
    [("query", jobj [("raw", .s prompt), ("parsed", .onil)]),
     ("summary", .s "Unable to generate plan"), ("flights", .onil),
     ("lodging", .onil), ("transport", .onil), ("weather", .anil),
     ("days", .anil), ("pricing", .onil), ("metadata", .onil)]
  let obj2 ← normalizeToContract nowIso obj
  let obj3 := match enrich obj2 with
    | .ok o => o
    | .error _ => obj2
  validate obj3

/-- The turn loop of `generate`, driven by the list of model responses
(the transcript bookkeeping and tool fan-out of the `tool_use` branch do
not influence which exit is taken and are elided).  An `end_turn`
response processes its first text block: success returns the plan, any
error — including both JSON parses failing — is re-raised, not replaced
by the fallback.  `end_turn` without a text block, an unknown stop
reason, and turn exhaustion all fall through to `fallbackPlan`. -/
def generateLoop (enrich validate : JVal → Except String JVal)
    (nowIso prompt : String) : List JVal → Except String JVal
  | [] => fallbackPlan enrich validate nowIso prompt
  | resp :: rest =>
    let stopReason := resp.get "stop_reason"
    let contentBlocks := asList (resp.getD "content" .anil)
    if stopReason = .s "end_turn" then
      match contentBlocks.find? (fun bl => bl.get "type" = .s "text") with
      | some bl => handleFinalText enrich validate nowIso (asStr (bl.getD "text" (.s "")))
      | none => fallbackPlan enrich validate nowIso prompt
    else if stopReason = .s "tool_use" then
      generateLoop enrich validate nowIso prompt rest
    else fallbackPlan enrich validate nowIso prompt

end Planner

/-! ### Embedding of `app/services/mcp_client.py` -/

namespace MCPClient

/-- `_parse_sse_response(text)`: the first `data:`-prefixed line of the
stripped body, JSON-decoded; `{}` when absent or undecodable. -/
def parseSSE (text : String) : JVal :=
  match (splitOnChar '\n' (trimChars text.toList)).find?
      (fun l => listPrefix "data:".toList l) with
  | some l =>
    (match jsonLoads (String.mk (trimChars (l.drop 5))) with
     | some v => v
     | none => .onil)
  | none => .onil

/-- One HTTP exchange as seen by `call_tool`: either the request raised
(timeouts, transport errors), or a response with a status code and body
came back. -/
inductive HttpOutcome where
  | exn (msg : String) : HttpOutcome
  | resp (status : Nat) (text : String) : HttpOutcome
  deriving DecidableEq, Repr

/-- `"k" in data` for the decoded response (`in` is key test on dicts,
membership on lists, substring test on strings; scalars raise, which the
surrounding `try` converts to an error dict). -/
def pyInData (data : JVal) (k : String) : Except String Bool :=
  match data with
  | .ocons a v tl => .ok (JVal.hasKey (.ocons a v tl) k)
  | .onil => .ok false
  | .anil => .ok false
  | .acons hd tl => .ok ((aElems (.acons hd tl)).contains (.s k))
  | .s t => .ok (containsSub k.toList t.toList)
  | _ => .error "TypeError: argument is not iterable"

/-- `MCPClient.call_tool(...)` return value as a function of whether the
(lazily triggered) initialization succeeded and of the HTTP outcome.
Every exception inside the `try` collapses to `{"error": str(e)}`. -/
def callToolResult (initOk : Bool) (outcome : HttpOutcome) : JVal :=
  if ¬ initOk then jobj [("error", .s "MCP session not initialized")]
  else
    match outcome with
    | .exn msg => jobj [("error", .s msg)]
    | .resp status text =>
      if 400 ≤ status then jobj [("error", .s "HTTPStatusError")]
      else
        let data := parseSSE text
        match pyInData data "result" with
        | .error e => jobj [("error", .s e)]
        | .ok hasRes =>
          if hasRes then
            (if isObj data then data.get "result"
             else jobj [("error", .s "TypeError: indices must be integers")])
          else
            match pyInData data "error" with
            | .error e => jobj [("error", .s e)]
            | .ok hasErr =>
              if hasErr then
                (if isObj data then jobj [("error", data.get "error")]
                 else jobj [("error", .s "TypeError: indices must be integers")])
              else jobj [("error", .s "Unknown error")]

/-- The shape asserted by the spec: no `error` key at all, or a dict
whose only key is `error`. -/
def specErrorShape (r : JVal) : Bool :=
  if r.hasKey "error" then
    (match oPairs r with
     | [(k, _)] => k = "error"
     | _ => false)
  else true

end MCPClient

/-! ### Embedding of `app/services/mcp_pool.py`

Two views of `MCPSessionPool.get_session`/the surrounding context
manager: a small-step interleaving system over `n` concurrent acquirers
(for the creation bound), and a sequential acquire/release pair (for the
idle-count bookkeeping).  Only the synchronization-relevant state is
kept; the hit/miss counters never influence control flow. -/

namespace MCPPool

/-- Program counter of one `get_session` caller.
`start`: about to try `get_nowait`; `waitLock`: queue was empty, waiting
on `self._lock`; `locked`: holding the lock, about to test
`total_created < max_size`; `creating`: holding the lock inside
`_create_session`; `waitQueue`: holding the lock inside
`await self.sessions.get()`; `leased`: session in hand, body of the
`with` running; `failed`: `_create_session` raised; `finished`: the
`finally` block has returned (or discarded) the session. -/
inductive PC where
  | start | waitLock | locked | creating | waitQueue | leased | failed | finished
  deriving DecidableEq, Repr

/-- Shared pool state plus the program counters of `n` acquirers. -/
structure PoolState (n : Nat) where
  totalCreated : Nat
  idle : Nat
  lock : Option (Fin n)
  pcs : Fin n → PC

/-- One interleaved step of some acquirer `t` against pool capacity
`maxSize`.  Each constructor is one atomic region of the Python between
two await/suspension points. -/
inductive PoolStep (maxSize : Nat) {n : Nat} : PoolState n → PoolState n → Prop where
  | getHit (t : Fin n) (st : PoolState n) :
      st.pcs t = .start → 0 < st.idle →
      PoolStep maxSize st
        { st with idle := st.idle - 1, pcs := Function.update st.pcs t .leased }
  | getMiss (t : Fin n) (st : PoolState n) :
      st.pcs t = .start → st.idle = 0 →
      PoolStep maxSize st { st with pcs := Function.update st.pcs t .waitLock }
  | lockAcquire (t : Fin n) (st : PoolState n) :
      st.pcs t = .waitLock → st.lock = none →
      PoolStep maxSize st
        { st with lock := some t, pcs := Function.update st.pcs t .locked }
  | checkBelowMax (t : Fin n) (st : PoolState n) :
      st.pcs t = .locked → st.lock = some t → st.totalCreated < maxSize →
      PoolStep maxSize st { st with pcs := Function.update st.pcs t .creating }
  | checkAtMax (t : Fin n) (st : PoolState n) :
      st.pcs t = .locked → st.lock = some t → maxSize ≤ st.totalCreated →
      PoolStep maxSize st { st with pcs := Function.update st.pcs t .waitQueue }
  | createSucceed (t : Fin n) (st : PoolState n) :
      st.pcs t = .creating → st.lock = some t →
      PoolStep maxSize st
        { st with totalCreated := st.totalCreated + 1, lock := none,
                  pcs := Function.update st.pcs t .leased }
  | createFail (t : Fin n) (st : PoolState n) :
      st.pcs t = .creating → st.lock = some t →
      PoolStep maxSize st
        { st with lock := none, pcs := Function.update st.pcs t .failed }
  | queueGet (t : Fin n) (st : PoolState n) :
      st.pcs t = .waitQueue → st.lock = some t → 0 < st.idle →
      PoolStep maxSize st
        { st with idle := st.idle - 1, lock := none,
                  pcs := Function.update st.pcs t .leased }
  | releasePut (t : Fin n) (st : PoolState n) :
      st.pcs t = .leased → st.idle < maxSize →
      PoolStep maxSize st
        { st with idle := st.idle + 1, pcs := Function.update st.pcs t .finished }
  | releaseDiscard (t : Fin n) (st : PoolState n) :
      st.pcs t = .leased → maxSize ≤ st.idle →
      PoolStep maxSize st { st with pcs := Function.update st.pcs t .finished }

/-- All acquirers at `start`, no lock held. -/
def initState (n t0 i0 : Nat) : PoolState n :=
  { totalCreated := t0, idle := i0, lock := none, pcs := fun _ => .start }

/-- Reachability under interleaved steps. -/
def PoolReachable (maxSize : Nat) {n : Nat} (st st2 : PoolState n) : Prop :=
  Relation.ReflTransGen (PoolStep maxSize (n := n)) st st2

/-- The inductive invariant: the creation count is bounded, and any task
between the lock acquisition and its matching release owns the lock
(hence at most one such task); a creating task additionally saw
`total_created < max_size` while holding the lock. -/
def PoolInv (maxSize : Nat) {n : Nat} (st : PoolState n) : Prop :=
  st.totalCreated ≤ maxSize ∧
  (∀ t : Fin n, (st.pcs t = .locked ∨ st.pcs t = .creating ∨ st.pcs t = .waitQueue) →
    st.lock = some t) ∧
  (∀ t : Fin n, st.pcs t = .creating → st.totalCreated < maxSize)

/-- Sequential model for the acquire/release bookkeeping.  `stats` keys
that never influence the idle count are carried for fidelity. -/
structure SeqPool where
  maxSize : Nat
  totalCreated : Nat
  idle : Nat
  totalRequests : Nat
  cacheHits : Nat
  cacheMisses : Nat
  activeSessions : Int
  deriving DecidableEq, Repr

/-- How a single sequential `get_session` entry ends. -/
inductive AcquireResult where
  | hit (p : SeqPool)
  | created (p : SeqPool)
  | createRaised (p : SeqPool)
  | blocked
  deriving DecidableEq, Repr

/-- The acquire half of `get_session` run without interference:
non-blocking pop, else create under the lock when below `max_size`
(`createOk` tells whether `initialize` succeeds), else block on the empty
queue (never returning, sequentially). -/
def seqAcquire (p : SeqPool) (createOk : Bool) : AcquireResult :=
  let p0 := { p with totalRequests := p.totalRequests + 1 }
  if 0 < p0.idle then
    .hit { p0 with idle := p0.idle - 1, cacheHits := p0.cacheHits + 1,
                   activeSessions := p0.activeSessions + 1 }
  else
    let p1 := { p0 with cacheMisses := p0.cacheMisses + 1 }
    if p1.totalCreated < p1.maxSize then
      if createOk then
        .created { p1 with totalCreated := p1.totalCreated + 1,
                           activeSessions := p1.activeSessions + 1 }
      else .createRaised p1
    else .blocked

/-- The `finally` half: `put_nowait` back into the queue, discarding on
`QueueFull` (`idle = maxSize`). -/
def seqRelease (p : SeqPool) : SeqPool :=
  if p.idle < p.maxSize then
    { p with idle := p.idle + 1, activeSessions := p.activeSessions - 1 }
  else { p with activeSessions := p.activeSessions - 1 }

/-- `acquire()` immediately followed by `release()`; `none` when the
acquire blocks (empty queue at capacity) and when `_create_session`
raises (the context manager then skips the put). -/
def seqAcquireRelease (p : SeqPool) (createOk : Bool) : Option SeqPool :=
  match seqAcquire p createOk with
  | .hit p2 => some (seqRelease p2)
  | .created p2 => some (seqRelease p2)
  | .createRaised _ => none
  | .blocked => none

/-- The `pool_size` entry of `get_stats()` (the idle count:
`self.sessions.qsize()`). -/
def statsPoolSize (p : SeqPool) : Nat := p.idle

end MCPPool

/-! ### Embedding of `app/services/anthropic_client.py` -/

namespace AnthropicClient

/-- What one POST attempt inside `chat_with_tools` produces:
a 2xx JSON response, an `HTTPStatusError` with a status and an optional
`retry-after` header, or any other exception. -/
inductive AttemptOutcome where
  | success (resp : JVal) : AttemptOutcome
  | httpErr (status : Nat) (retryAfter : Option String) : AttemptOutcome
  | otherErr (msg : String) : AttemptOutcome
  deriving DecidableEq, Repr

/-- How `chat_with_tools` ends: a response, the distinct
`RateLimitError`, a non-429 `HTTPStatusError` re-raise, or a re-raised
generic exception. -/
inductive ChatResult where
  | ok (resp : JVal) : ChatResult
  | rateLimited : ChatResult
  | httpFailure (status : Nat) : ChatResult
  | otherFailure (msg : String) : ChatResult
  deriving DecidableEq, Repr

def is429 : AttemptOutcome → Bool
  | .httpErr status _ => status = 429
  | _ => false

def retryAfterOf : AttemptOutcome → Option String
  | .httpErr _ ra => ra
  | _ => none

/-- The backoff delay for attempt `attempt`: `base_delay * 2 ** attempt`,
overridden by a truthy `Retry-After` header when it parses as a float. -/
def chatDelay (baseDelay : PyNum) (attempt : Nat) (retryAfter : Option String) : PyNum :=
  let d := baseDelay.mulPow2 attempt
  match retryAfter with
  | some ra =>
    if ra ≠ "" then
      (match parsePyFloat ra with
       | some v => v
       | none => d)
    else d
  | none => d

/-- The retry loop of `chat_with_tools`, returning the result and the
list of performed sleeps.  `remaining` counts the loop iterations left
(`max_retries - attempt`); the 0 case is the fall-through
`raise Exception("Failed to call Anthropic API")`, reachable only with
`max_retries = 0`. -/
def chatAux (outcomes : Nat → AttemptOutcome) (baseDelay : PyNum) (maxRetries : Nat) :
    Nat → Nat → ChatResult × List PyNum
  | 0, _ => (.otherFailure "Failed to call Anthropic API", [])
  | remaining + 1, attempt =>
    match outcomes attempt with
    | .success v => (.ok v, [])
    | .otherErr msg => (.otherFailure msg, [])
    | .httpErr status ra =>
      if status = 429 then
        if attempt + 1 < maxRetries then
          let d := chatDelay baseDelay attempt ra
          let (res, sleeps) := chatAux outcomes baseDelay maxRetries remaining (attempt + 1)
          (res, d :: sleeps)
        else (.rateLimited, [])
      else (.httpFailure status, [])

/-- `chat_with_tools(messages, tools, system, max_retries, base_delay)`
with the per-attempt HTTP behaviour supplied as an oracle. -/
def chatWithTools (outcomes : Nat → AttemptOutcome) (baseDelay : PyNum)
    (maxRetries : Nat) : ChatResult × List PyNum :=
  chatAux outcomes baseDelay maxRetries maxRetries 0

/-- The sleeps `chat_with_tools` performs for the attempts
`att, att+1, ..., att+k-1` (each a 429). -/
def delaysSeg (outcomes : Nat → AttemptOutcome) (base : PyNum) (att k : Nat) :
    List PyNum :=
  (List.range k).map (fun j => chatDelay base (att + j) (retryAfterOf (outcomes (att + j))))

end AnthropicClient

/-! ### Embedding of `app/services/prompt_parser.py` -/

namespace PromptParser

/-- `_compute_end_date_if_missing(d)`: when `start_date` and `duration`
are truthy and `end_date` is not, parse the start date, add
`int(duration) - 1` days (0 when non-positive), and write `end_date`;
any exception inside the `try` leaves the dict unchanged. -/
def computeEndDateIfMissing (d : JVal) : JVal :=
  let start := d.get "start_date"
  let duration := d.get "duration"
  if truthy start ∧ truthy duration ∧ ¬ truthy (d.get "end_date") then
    match start with
    | .s t =>
      (match parseYMD t with
       | some (y, m, dd) =>
         (match pyIntVal duration with
          | .ok nd =>
            let delta := if nd > 0 then nd - 1 else 0
            let ymd2 := addDays y m dd delta
            d.setKey "end_date" (.s (formatYMD ymd2.1 ymd2.2.1 ymd2.2.2))
          | .error _ => d)
       | none => d)
    | _ => d
  else d

end PromptParser

/-! ### Embedding of `app/tools/adapters.py` -/

namespace Adapters

/-- `convert_mcp_tool_to_anthropic(mcp_tool)`. -/
def convertMcpToolToAnthropic (mcpTool : JVal) : JVal :=
  jobj
    [("name", mcpTool.getD "name" (.s "unknown_tool")),
     ("description", mcpTool.getD "description" (.s "No description available")),
     ("input_schema", mcpTool.getD "inputSchema"
        (jobj [("type", .s "object"), ("properties", .onil)]))]

/-- One call of `get_mcp_tools_schema()` as a function of the module
cache `_cached_mcp_tools` and of what `fetch_mcp_tools_from_server`
would deliver on this call.  Returns the new cache, the returned list,
and whether the server was contacted. -/
def getMcpToolsSchema (cache : Option (List JVal)) (serverTools : List JVal) :
    Option (List JVal) × List JVal × Bool :=
  match cache with
  | some cached => (some cached, cached, false)
  | none =>
    if serverTools = [] then (some [], [], true)
    else
      let anthropicTools := serverTools.map convertMcpToolToAnthropic
      (some anthropicTools, anthropicTools, true)

/-- A sequence of calls, threading the module cache; yields the final
cache and the per-call (result, contacted-server) pairs. -/
def runCalls (cache : Option (List JVal)) :
    List (List JVal) → Option (List JVal) × List (List JVal × Bool)
  | [] => (cache, [])
  | fetch :: rest =>
    let out := getMcpToolsSchema cache fetch
    let next := runCalls out.1 rest
    (next.1, (out.2.1, out.2.2) :: next.2)

end Adapters

/-! ### Claim theorems -/

/-- C1.  The claim says `normalize_to_contract` returns (with the nine
contract keys) for every decodable dict.  Evaluating the embedded code at
the decodable dict `{"from": 123}` instead reaches `normalize_city_name`,
whose `city_name.strip()` raises `AttributeError` on the non-string
origin value, so the function raises rather than returning. -/
theorem normalize_to_contract_raises_on_int_from :
    Planner.normalizeToContract "2025-10-04T00:00:00Z" (jobj [("from", .i 123)]) =
      .error "AttributeError: strip on non-string city name" := by rfl

/-- C2 counterexample.  When the server answers `tools/call` with a
result object that itself pairs an `error` member with another key,
`call_tool` passes it through verbatim, returning a map that has `error`
and other keys — violating the claimed shape. -/
theorem call_tool_passthrough_breaks_error_shape :
    MCPClient.callToolResult true
        (.resp 200 "data: \x7b\"result\": \x7b\"error\": 1, \"x\": 2\x7d\x7d") =
      jobj [("error", .i 1), ("x", .i 2)] ∧
    MCPClient.specErrorShape (MCPClient.callToolResult true
        (.resp 200 "data: \x7b\"result\": \x7b\"error\": 1, \"x\": 2\x7d\x7d")) = false := by
  exact ⟨rfl, by decide⟩

/-- C2 amended.  Every return value of `call_tool` either satisfies the
claimed shape (no `error` key, or exactly the single key `error` — this
covers every error map the client itself constructs), or is the server's
`result` member passed through verbatim (a 2xx response whose decoded
body has a `result` entry). -/
theorem call_tool_error_shape_or_passthrough :
    ∀ (initOk : Bool) (outcome : MCPClient.HttpOutcome),
      MCPClient.specErrorShape (MCPClient.callToolResult initOk outcome) = true ∨
      (∃ status text, outcome = .resp status text ∧ status < 400 ∧ initOk = true ∧
        MCPClient.callToolResult initOk outcome = (MCPClient.parseSSE text).get "result") := by
  intro initOk outcome
  have hshape : ∀ v : JVal, MCPClient.specErrorShape (jobj [("error", v)]) = true := by
    intro v; rfl
  by_cases hinit : initOk
  · subst hinit
    cases outcome with
    | exn msg => exact Or.inl (hshape _)
    | resp status text =>
      by_cases hstat : 400 ≤ status
      · left
        simp only [MCPClient.callToolResult, if_pos hstat]
        simp [hshape]
      · have hlt : status < 400 := by omega
        simp only [MCPClient.callToolResult, if_neg hstat]
        rcases hres : MCPClient.pyInData (MCPClient.parseSSE text) "result" with e | hasRes
        · simp only [hres]; exact Or.inl (hshape _)
        · rcases hasRes with _ | _
          · -- no `result` member
            simp only [hres]
            rcases herr : MCPClient.pyInData (MCPClient.parseSSE text) "error" with e2 | hasErr
            · simp only [herr]; exact Or.inl (hshape _)
            · rcases hasErr with _ | _
              · simp only [herr]; exact Or.inl (hshape _)
              · simp only [herr]
                by_cases hobj : isObj (MCPClient.parseSSE text)
                · simp only [hobj]; exact Or.inl (hshape _)
                · simp only [hobj]; exact Or.inl (hshape _)
          · -- `result` member present
            simp only [hres]
            by_cases hobj : isObj (MCPClient.parseSSE text)
            · simp only [hobj]
              exact Or.inr ⟨status, text, rfl, hlt, by trivial, by
                simp [MCPClient.callToolResult, if_neg hstat, hres, hobj]⟩
            · simp only [hobj]; exact Or.inl (hshape _)
  · have : initOk = false := by simpa using hinit
    subst this
    exact Or.inl (hshape _)

/-- C6 counterexample.  For the prior pool state with an empty idle
queue, nothing created yet and capacity 10, `acquire()` creates a fresh
session and `release()` puts it into the idle queue: `stats().idle`
changes from 0 to 1, so the acquire/release pair does not leave it
unchanged. -/
theorem acquire_release_changes_idle_on_empty_pool :
    ¬ ((MCPPool.seqAcquireRelease ⟨10, 0, 0, 0, 0, 0, 0⟩ true).map MCPPool.statsPoolSize =
        some (MCPPool.statsPoolSize ⟨10, 0, 0, 0, 0, 0, 0⟩)) := by decide

/-- C6 amended.  For any prior pool state with `idle ≤ max_size` (an
invariant of the bounded queue): when the idle queue is nonempty,
`acquire()` immediately followed by `release()` leaves `stats().idle`
(the `pool_size` entry) unchanged; when the idle queue is empty,
creation is possible (`total_created < max_size`) and the session
initializes, the pair instead increases `stats().idle` by one, because
the newly created session is returned to the queue. -/
theorem acquire_release_idle_bookkeeping :
    ∀ (p : MCPPool.SeqPool) (createOk : Bool), p.idle ≤ p.maxSize →
      (0 < p.idle →
        (MCPPool.seqAcquireRelease p createOk).map MCPPool.statsPoolSize =
          some (MCPPool.statsPoolSize p)) ∧
      (p.idle = 0 → p.totalCreated < p.maxSize → createOk = true →
        (MCPPool.seqAcquireRelease p createOk).map MCPPool.statsPoolSize =
          some (MCPPool.statsPoolSize p + 1)) := by
  intro p createOk hle
  constructor
  · intro hpos
    have hnf : p.idle - 1 < p.maxSize := by omega
    simp [MCPPool.seqAcquireRelease, MCPPool.seqAcquire, MCPPool.seqRelease,
          MCPPool.statsPoolSize, hpos, hnf]
    omega
  · intro hzero hcap hok
    subst hok
    have hmax : 0 < p.maxSize := by omega
    simp [MCPPool.seqAcquireRelease, MCPPool.seqAcquire, MCPPool.seqRelease,
          MCPPool.statsPoolSize, hzero, hcap, hmax]

/-- C6 witness: the amended theorem applied at a nonempty-queue state
(idle stays 2) and at an empty-queue state (idle becomes 1). -/
theorem acquire_release_idle_bookkeeping_witness :
    (MCPPool.seqAcquireRelease ⟨10, 4, 2, 0, 0, 0, 0⟩ true).map MCPPool.statsPoolSize =
      some 2 ∧
    (MCPPool.seqAcquireRelease ⟨10, 0, 0, 0, 0, 0, 0⟩ true).map MCPPool.statsPoolSize =
      some 1 :=
  ⟨(acquire_release_idle_bookkeeping ⟨10, 4, 2, 0, 0, 0, 0⟩ true (by decide)).1 (by decide),
   (acquire_release_idle_bookkeeping ⟨10, 0, 0, 0, 0, 0, 0⟩ true (by decide)).2 rfl
     (by decide) rfl⟩

/-- C7 counterexample.  The Normalizer has no single numeric coercion
satisfying all four claimed equations: the price coercion (strip
non-digit/dot, then parse) sends `"9.4/10"` to `9.41` — the slash is
stripped, leaving `"9.410"` — not to `9.4`; and the rating coercion
(split on `/`) sends `"7,880 TL"` to `None`, not to `7880.0`. -/
theorem numeric_coercion_counterexample :
    Planner.coercePrice (.s "9.4/10") = .f ⟨941, 100⟩ ∧
    Planner.coercePrice (.s "9.4/10") ≠ .f ⟨47, 5⟩ ∧
    Planner.coerceRating (.s "7,880 TL") = .null ∧
    Planner.coerceRating (.s "7,880 TL") ≠ .f ⟨7880, 1⟩ := by decide

/-- C7 amended.  The Normalizer uses two numeric coercions.  The price
coercion maps `"7,880 TL"` to `7880.0`, `None` to `None`,
`"not a number"` to `None`, and `"9.4/10"` to `9.41`.  The rating
coercion maps `"9.4/10"` to `9.4`, `None` to `None`, `"not a number"`
to `None`, and `"7,880 TL"` to `None`.  Unparsable values become absent,
never an error. -/
theorem numeric_coercion_values :
    Planner.coercePrice (.s "7,880 TL") = .f ⟨7880, 1⟩ ∧
    Planner.coercePrice .null = .null ∧
    Planner.coercePrice (.s "not a number") = .null ∧
    Planner.coercePrice (.s "9.4/10") = .f ⟨941, 100⟩ ∧
    Planner.coerceRating (.s "9.4/10") = .f ⟨47, 5⟩ ∧
    Planner.coerceRating .null = .null ∧
    Planner.coerceRating (.s "not a number") = .null ∧
    Planner.coerceRating (.s "7,880 TL") = .null := by decide

/-- C8.  A dates dict carrying `start_date = "2025-10-15"` and
`duration = 4` but no `end_date` gets `end_date = "2025-10-18"` written
by calendar arithmetic (start plus `duration - 1` days). -/
theorem end_date_computed_from_start_and_duration :
    PromptParser.computeEndDateIfMissing
        (jobj [("start_date", .s "2025-10-15"), ("duration", .i 4)]) =
      jobj [("start_date", .s "2025-10-15"), ("duration", .i 4),
            ("end_date", .s "2025-10-18")] := by decide

/-- C10.  A first `get_mcp_tools_schema` call that fetches no tools
caches the empty list; afterwards every call — whatever the server would
now deliver — returns the empty list without contacting the server, and
the cache stays the empty list. -/
theorem empty_tool_fetch_cached_forever :
    ∀ fetches : List (List JVal),
      Adapters.getMcpToolsSchema none [] = (some [], [], true) ∧
      Adapters.runCalls (some []) fetches =
        (some [], fetches.map (fun _ => ([], false))) := by
  intro fetches
  refine ⟨rfl, ?_⟩
  induction fetches with
  | nil => rfl
  | cons hd tl ih => simp [Adapters.runCalls, Adapters.getMcpToolsSchema, ih]

namespace AnthropicClient

theorem delaysSeg_succ (outcomes : Nat → AttemptOutcome) (base : PyNum) (att k : Nat) :
    delaysSeg outcomes base att (k + 1) =
      chatDelay base att (retryAfterOf (outcomes att)) ::
        delaysSeg outcomes base (att + 1) k := by
  simp [delaysSeg, List.range_succ_eq_map, List.map_map, Function.comp]
  intro a ha
  have h2 : att + (a + 1) = att + 1 + a := by omega
  rw [h2]

theorem chatAux_peelOne (outcomes : Nat → AttemptOutcome) (base : PyNum) (maxR att : Nat)
    (h429 : is429 (outcomes att) = true) (hlt : att + 1 < maxR) :
    chatAux outcomes base maxR (maxR - att) att =
      ((chatAux outcomes base maxR (maxR - (att + 1)) (att + 1)).1,
       chatDelay base att (retryAfterOf (outcomes att)) ::
         (chatAux outcomes base maxR (maxR - (att + 1)) (att + 1)).2) := by
  have hrem : maxR - att = (maxR - (att + 1)) + 1 := by omega
  rw [hrem]
  cases houtcome : outcomes att with
  | success v => rw [houtcome] at h429; simp [is429] at h429
  | otherErr msg => rw [houtcome] at h429; simp [is429] at h429
  | httpErr status ra =>
    rw [houtcome] at h429
    simp only [is429, decide_eq_true_eq] at h429
    subst h429
    simp [chatAux, houtcome, hlt, retryAfterOf]

theorem chatAux_peelAll (outcomes : Nat → AttemptOutcome) (base : PyNum) (maxR : Nat) :
    ∀ (k att : Nat), att + k < maxR →
      (∀ j, j < k → is429 (outcomes (att + j)) = true) →
      chatAux outcomes base maxR (maxR - att) att =
        ((chatAux outcomes base maxR (maxR - (att + k)) (att + k)).1,
         delaysSeg outcomes base att k ++
           (chatAux outcomes base maxR (maxR - (att + k)) (att + k)).2) := by
  intro k
  induction k with
  | zero => intro att _ _; simp [delaysSeg]
  | succ k ih =>
    intro att hk h429s
    have h0 : is429 (outcomes att) = true := by
      have := h429s 0 (by omega); simpa using this
    have hlt : att + 1 < maxR := by omega
    rw [chatAux_peelOne outcomes base maxR att h0 hlt]
    have hshift : ∀ j, j < k → is429 (outcomes (att + 1 + j)) = true := by
      intro j hj
      have := h429s (j + 1) (by omega)
      have he : att + (j + 1) = att + 1 + j := by omega
      rwa [he] at this
    rw [ih (att + 1) (by omega) hshift]
    rw [delaysSeg_succ]
    have he : att + 1 + k = att + (k + 1) := by omega
    simp [he]

theorem chatAux_terminal (outcomes : Nat → AttemptOutcome) (base : PyNum) (maxR att : Nat)
    (hlt : att < maxR) :
    (∀ v, outcomes att = .success v →
      chatAux outcomes base maxR (maxR - att) att = (.ok v, [])) ∧
    (∀ msg, outcomes att = .otherErr msg →
      chatAux outcomes base maxR (maxR - att) att = (.otherFailure msg, [])) ∧
    (∀ status ra, outcomes att = .httpErr status ra → status ≠ 429 →
      chatAux outcomes base maxR (maxR - att) att = (.httpFailure status, [])) ∧
    (∀ ra, outcomes att = .httpErr 429 ra → att + 1 = maxR →
      chatAux outcomes base maxR (maxR - att) att = (.rateLimited, [])) := by
  have hrem : maxR - att = (maxR - att - 1) + 1 := by omega
  refine ⟨?_, ?_, ?_, ?_⟩
  · intro v hv; rw [hrem]; simp [chatAux, hv]
  · intro msg hm; rw [hrem]; simp [chatAux, hm]
  · intro status ra hh hne; rw [hrem]; simp [chatAux, hh, hne]
  · intro ra hh hend; rw [hrem]; simp [chatAux, hh]; omega

end AnthropicClient

/-- C5.  `chat_with_tools` retries only on HTTP 429: when the first `k`
attempts return 429 and attempt `k` is terminal, a 2xx response returns
immediately with the `k` backoff sleeps performed so far, and a non-429
HTTP error or any other exception propagates immediately with those same
sleeps and no further attempt; when all `max_retries` attempts return
429, the call raises the distinct rate-limit error kind after
`max_retries - 1` sleeps.  Each sleep for attempt `a` lasts
`base_delay * 2 ^ a` seconds, or the server's `Retry-After` value when
that header is present and parses as a float. -/
theorem chat_with_tools_retry_spec :
    ∀ (outcomes : Nat → AnthropicClient.AttemptOutcome) (base : PyNum) (maxR : Nat),
      (∀ k, k < maxR → (∀ j, j < k → AnthropicClient.is429 (outcomes j) = true) →
        ((∀ v, outcomes k = .success v →
            AnthropicClient.chatWithTools outcomes base maxR =
              (.ok v, AnthropicClient.delaysSeg outcomes base 0 k)) ∧
         (∀ status ra, outcomes k = .httpErr status ra → status ≠ 429 →
            AnthropicClient.chatWithTools outcomes base maxR =
              (.httpFailure status, AnthropicClient.delaysSeg outcomes base 0 k)) ∧
         (∀ msg, outcomes k = .otherErr msg →
            AnthropicClient.chatWithTools outcomes base maxR =
              (.otherFailure msg, AnthropicClient.delaysSeg outcomes base 0 k)))) ∧
      ((∀ j, j < maxR → AnthropicClient.is429 (outcomes j) = true) → 0 < maxR →
        AnthropicClient.chatWithTools outcomes base maxR =
          (.rateLimited, AnthropicClient.delaysSeg outcomes base 0 (maxR - 1))) ∧
      (∀ a, AnthropicClient.chatDelay base a none = base.mulPow2 a) ∧
      (∀ a ra v, ra ≠ "" → parsePyFloat ra = some v →
        AnthropicClient.chatDelay base a (some ra) = v) := by
  intro outcomes base maxR
  have hmain : AnthropicClient.chatWithTools outcomes base maxR =
      AnthropicClient.chatAux outcomes base maxR (maxR - 0) 0 := by
    simp [AnthropicClient.chatWithTools]
  refine ⟨?_, ?_, ?_, ?_⟩
  · intro k hk h429s
    have hpeel := AnthropicClient.chatAux_peelAll outcomes base maxR k 0 (by omega)
      (by intro j hj; simpa using h429s j hj)
    simp only [Nat.zero_add] at hpeel
    have hterm := AnthropicClient.chatAux_terminal outcomes base maxR k hk
    refine ⟨?_, ?_, ?_⟩
    · intro v hv
      rw [hmain, hpeel, hterm.1 v hv]; simp
    · intro status ra hh hne
      rw [hmain, hpeel, hterm.2.2.1 status ra hh hne]; simp
    · intro msg hm
      rw [hmain, hpeel, hterm.2.1 msg hm]; simp
  · intro h429s hpos
    have hpeel := AnthropicClient.chatAux_peelAll outcomes base maxR (maxR - 1) 0 (by omega)
      (by intro j hj; simpa using h429s j (by omega))
    simp only [Nat.zero_add] at hpeel
    have hlast : AnthropicClient.is429 (outcomes (maxR - 1)) = true :=
      h429s (maxR - 1) (by omega)
    cases houtcome : outcomes (maxR - 1) with
    | success v => rw [houtcome] at hlast; simp [AnthropicClient.is429] at hlast
    | otherErr msg => rw [houtcome] at hlast; simp [AnthropicClient.is429] at hlast
    | httpErr status ra =>
      rw [houtcome] at hlast
      simp only [AnthropicClient.is429, decide_eq_true_eq] at hlast
      subst hlast
      have hterm := (AnthropicClient.chatAux_terminal outcomes base maxR (maxR - 1)
        (by omega)).2.2.2 ra houtcome (by omega)
      rw [hmain, hpeel, hterm]; simp
  · intro a; rfl
  · intro a ra v hne hparse
    simp [AnthropicClient.chatDelay, hne, hparse]

/-- C5 witness: one 429 carrying `Retry-After: 1.5` followed by a
success returns the response after exactly one 1.5-second sleep. -/
theorem chat_with_tools_retry_spec_witness :
    AnthropicClient.chatWithTools
        (fun j => if j = 0 then .httpErr 429 (some "1.5") else .success (.i 7))
        ⟨2, 1⟩ 3 =
      (.ok (.i 7), [⟨3, 2⟩]) :=
  ((chat_with_tools_retry_spec
      (fun j => if j = 0 then .httpErr 429 (some "1.5") else .success (.i 7))
      ⟨2, 1⟩ 3).1 1 (by decide) (by decide)).1 (.i 7) rfl

/-- C3 counterexample.  When the final text parses neither directly nor
via the outermost brace span, the run does not abort into the fallback
plan: `generate` re-raises the parse error (the `except` at the end of
the text-block handler logs and re-raises), as evaluated here on a
braceless final text with oracles that always succeed — while the
deterministic fallback plan itself would have been available. -/
theorem parse_failure_propagates_instead_of_fallback :
    Planner.generateLoop (fun o => Except.ok o) (fun o => Except.ok o) "T0" "p"
        [jobj [("stop_reason", .s "end_turn"),
               ("content", jarr [jobj [("type", .s "text"),
                                       ("text", .s "no json here at all")]])]] =
      .error "ValueError: No valid JSON found in response" ∧
    (Planner.fallbackPlan (fun o => Except.ok o) (fun o => Except.ok o) "T0" "p").isOk
      = true := ⟨rfl, rfl⟩

/-- C3 amended.  When the model's final text is not directly parsable as
JSON, the run first retries parsing on the outermost brace span of the
text; if that re-parse also fails (or no brace span exists), the parse
error propagates to the caller of `generate` — the deterministic
fallback plan is built only on turn-budget exhaustion, a missing text
block, or an unknown stop reason, not on parse failure. -/
theorem json_guard_brace_retry_then_propagate :
    ∀ (raw : String) (enrich validate : JVal → Except String JVal) (nowIso prompt : String),
      jsonLoads raw = none → pyStrip raw ≠ "" →
      (∀ a e data, sFind raw '\x7b' = some a → sRFind raw '\x7d' = some e →
          jsonLoads (sliceStr raw a (e + 1)) = some data →
          Planner.jsonOnlyGuard raw = Planner.normBlockItemTypes data) ∧
      (∀ msg, Planner.jsonOnlyGuard raw = .error msg →
          Planner.generateLoop enrich validate nowIso prompt
            [jobj [("stop_reason", .s "end_turn"),
                   ("content", jarr [jobj [("type", .s "text"), ("text", .s raw)]])]] =
            .error msg) := by
  intro raw enrich validate nowIso prompt hload hne
  have hcond : ¬ (raw = "" ∨ pyStrip raw = "") := by
    rintro (h1 | h2)
    · subst h1; exact hne rfl
    · exact hne h2
  constructor
  · intro a e data hfind hrfind hext
    simp only [Planner.jsonOnlyGuard, if_neg hcond, hload, hfind, hrfind, hext]
  · intro msg hguard
    simp [Planner.generateLoop, JVal.get, JVal.getD, Planner.asList, aElems,
          jarr, jobj, List.find?, Planner.handleFinalText, Planner.asStr, hguard,
          bind, Except.bind]

/-- C3 witness: the amended theorem applied to a text whose brace span
re-parses (the guard succeeds with the extracted object) and to a
braceless text (the run propagates the guard's error). -/
theorem json_guard_brace_retry_then_propagate_witness :
    Planner.jsonOnlyGuard "txt \x7b\"a\": 1\x7d end" =
      Planner.normBlockItemTypes (jobj [("a", .i 1)]) ∧
    Planner.generateLoop (fun o => Except.ok o) (fun o => Except.ok o) "T1" "p2"
        [jobj [("stop_reason", .s "end_turn"),
               ("content", jarr [jobj [("type", .s "text"),
                                       ("text", .s "still not json")]])]] =
      .error "ValueError: No valid JSON found in response" :=
  ⟨(json_guard_brace_retry_then_propagate "txt \x7b\"a\": 1\x7d end"
      (fun o => Except.ok o) (fun o => Except.ok o) "T1" "p2" rfl (by decide)).1
      4 11 (jobj [("a", .i 1)]) rfl rfl rfl,
   (json_guard_brace_retry_then_propagate "still not json"
      (fun o => Except.ok o) (fun o => Except.ok o) "T1" "p2" rfl (by decide)).2
      "ValueError: No valid JSON found in response" rfl⟩

namespace MCPPool

theorem poolInv_step {n : Nat} (maxSize : Nat) (st st2 : PoolState n)
    (hinv : PoolInv maxSize st) (hstep : PoolStep maxSize st st2) :
    PoolInv maxSize st2 := by
  obtain ⟨hbound, hlockown, hcreating⟩ := hinv
  cases hstep with
  | getHit t st hpc hidle =>
    refine ⟨hbound, ?_, ?_⟩
    · intro t2 h
      dsimp only at h ⊢
      by_cases ht : t2 = t
      · subst ht; rw [Function.update_same] at h
        rcases h with h | h | h <;> simp at h
      · rw [Function.update_noteq ht] at h
        exact hlockown t2 h
    · intro t2 h
      dsimp only at h ⊢
      by_cases ht : t2 = t
      · subst ht; rw [Function.update_same] at h; simp at h
      · rw [Function.update_noteq ht] at h
        exact hcreating t2 h
  | getMiss t st hpc hidle =>
    refine ⟨hbound, ?_, ?_⟩
    · intro t2 h
      dsimp only at h ⊢
      by_cases ht : t2 = t
      · subst ht; rw [Function.update_same] at h
        rcases h with h | h | h <;> simp at h
      · rw [Function.update_noteq ht] at h
        exact hlockown t2 h
    · intro t2 h
      dsimp only at h ⊢
      by_cases ht : t2 = t
      · subst ht; rw [Function.update_same] at h; simp at h
      · rw [Function.update_noteq ht] at h
        exact hcreating t2 h
  | lockAcquire t st hpc hlock =>
    refine ⟨hbound, ?_, ?_⟩
    · intro t2 h
      dsimp only at h ⊢
      by_cases ht : t2 = t
      · subst ht; rfl
      · rw [Function.update_noteq ht] at h
        have := hlockown t2 h
        rw [hlock] at this
        exact absurd this (by simp)
    · intro t2 h
      dsimp only at h ⊢
      by_cases ht : t2 = t
      · subst ht; rw [Function.update_same] at h; simp at h
      · rw [Function.update_noteq ht] at h
        exact hcreating t2 h
  | checkBelowMax t st hpc hl hlt =>
    refine ⟨hbound, ?_, ?_⟩
    · intro t2 h
      dsimp only at h ⊢
      by_cases ht : t2 = t
      · subst ht; exact hl
      · rw [Function.update_noteq ht] at h
        exact hlockown t2 h
    · intro t2 h
      dsimp only at h ⊢
      by_cases ht : t2 = t
      · subst ht; exact hlt
      · rw [Function.update_noteq ht] at h
        exact hcreating t2 h
  | checkAtMax t st hpc hl hge =>
    refine ⟨hbound, ?_, ?_⟩
    · intro t2 h
      dsimp only at h ⊢
      by_cases ht : t2 = t
      · subst ht; exact hl
      · rw [Function.update_noteq ht] at h
        exact hlockown t2 h
    · intro t2 h
      dsimp only at h ⊢
      by_cases ht : t2 = t
      · subst ht; rw [Function.update_same] at h; simp at h
      · rw [Function.update_noteq ht] at h
        exact hcreating t2 h
  | createSucceed t st hpc hl =>
    refine ⟨hcreating t hpc, ?_, ?_⟩
    · intro t2 h
      dsimp only at h ⊢
      by_cases ht : t2 = t
      · subst ht; rw [Function.update_same] at h
        rcases h with h | h | h <;> simp at h
      · rw [Function.update_noteq ht] at h
        have := hlockown t2 h
        rw [hl] at this
        exact absurd this (by simp [ht, Option.some_inj]; intro hc; exact ht hc.symm)
    · intro t2 h
      dsimp only at h ⊢
      by_cases ht : t2 = t
      · subst ht; rw [Function.update_same] at h; simp at h
      · rw [Function.update_noteq ht] at h
        have := hlockown t2 (Or.inr (Or.inl h))
        rw [hl] at this
        exact absurd this (by simp; intro hc; exact ht hc.symm)
  | createFail t st hpc hl =>
    refine ⟨hbound, ?_, ?_⟩
    · intro t2 h
      dsimp only at h ⊢
      by_cases ht : t2 = t
      · subst ht; rw [Function.update_same] at h
        rcases h with h | h | h <;> simp at h
      · rw [Function.update_noteq ht] at h
        have := hlockown t2 h
        rw [hl] at this
        exact absurd this (by simp; intro hc; exact ht hc.symm)
    · intro t2 h
      dsimp only at h ⊢
      by_cases ht : t2 = t
      · subst ht; rw [Function.update_same] at h; simp at h
      · rw [Function.update_noteq ht] at h
        exact hcreating t2 h
  | queueGet t st hpc hl hidle =>
    refine ⟨hbound, ?_, ?_⟩
    · intro t2 h
      dsimp only at h ⊢
      by_cases ht : t2 = t
      · subst ht; rw [Function.update_same] at h
        rcases h with h | h | h <;> simp at h
      · rw [Function.update_noteq ht] at h
        have := hlockown t2 h
        rw [hl] at this
        exact absurd this (by simp; intro hc; exact ht hc.symm)
    · intro t2 h
      dsimp only at h ⊢
      by_cases ht : t2 = t
      · subst ht; rw [Function.update_same] at h; simp at h
      · rw [Function.update_noteq ht] at h
        exact hcreating t2 h
  | releasePut t st hpc hroom =>
    refine ⟨hbound, ?_, ?_⟩
    · intro t2 h
      dsimp only at h ⊢
      by_cases ht : t2 = t
      · subst ht; rw [Function.update_same] at h
        rcases h with h | h | h <;> simp at h
      · rw [Function.update_noteq ht] at h
        exact hlockown t2 h
    · intro t2 h
      dsimp only at h ⊢
      by_cases ht : t2 = t
      · subst ht; rw [Function.update_same] at h; simp at h
      · rw [Function.update_noteq ht] at h
        exact hcreating t2 h
  | releaseDiscard t st hpc hfull =>
    refine ⟨hbound, ?_, ?_⟩
    · intro t2 h
      dsimp only at h ⊢
      by_cases ht : t2 = t
      · subst ht; rw [Function.update_same] at h
        rcases h with h | h | h <;> simp at h
      · rw [Function.update_noteq ht] at h
        exact hlockown t2 h
    · intro t2 h
      dsimp only at h ⊢
      by_cases ht : t2 = t
      · subst ht; rw [Function.update_same] at h; simp at h
      · rw [Function.update_noteq ht] at h
        exact hcreating t2 h

end MCPPool

/-- C4.  In every state reachable from a pool start state whose creation
count already respects the bound (as after `warmup`), under any
interleaving of `n` concurrent `get_session` callers — including `n`
greater than `max_size` racing on an empty idle queue — the total number
of sessions ever created stays at most `max_size`: the
`total_created < max_size` test and the increment inside
`_create_session` both happen while holding `self._lock`. -/
theorem pool_total_created_bounded :
    ∀ (n maxSize t0 i0 : Nat) (st : MCPPool.PoolState n), t0 ≤ maxSize →
      MCPPool.PoolReachable maxSize (MCPPool.initState n t0 i0) st →
      st.totalCreated ≤ maxSize := by
  intro n maxSize t0 i0 st ht0 hreach
  suffices h : MCPPool.PoolInv maxSize st from h.1
  induction hreach with
  | refl =>
    refine ⟨ht0, ?_, ?_⟩
    · intro t h
      rcases h with h | h | h <;> simp [MCPPool.initState] at h
    · intro t h
      simp [MCPPool.initState] at h
  | tail hr hstep ih => exact MCPPool.poolInv_step maxSize _ _ ih hstep

/-- C4 witness: the bound applied to the initial state itself (20
acquirers, capacity 3, nothing created yet). -/
theorem pool_total_created_bounded_witness :
    (MCPPool.initState 20 0 0).totalCreated ≤ 3 :=
  pool_total_created_bounded 20 3 0 0 (MCPPool.initState 20 0 0) (by decide)
    Relation.ReflTransGen.refl

namespace Planner

theorem pyOr_null_left (b : JVal) : pyOr .null b = b := rfl

theorem pyOr_of_truthy {a : JVal} (b : JVal) (h : truthy a = true) : pyOr a b = a := by
  simp [pyOr, h]

theorem pyOr_of_falsy {a : JVal} (b : JVal) (h : truthy a = false) : pyOr a b = b := by
  simp [pyOr, h]

/-- The value of an `or`-expression is its first operand when truthy,
else its second. -/
theorem pyOr_cases (a b : JVal) :
    (truthy (pyOr a b) = true ∧ pyOr a b = a) ∨ pyOr a b = b := by
  by_cases h : truthy a = true
  · exact Or.inl ⟨by simp [pyOr, h], by simp [pyOr, h]⟩
  · right
    have h2 : truthy a = false := by simpa using h
    simp [pyOr, h2]

theorem pyOr_self_of_or_empty {v : JVal} (h : truthy v = true ∨ v = .s "") :
    pyOr v (.s "") = v := by
  rcases h with h | h
  · exact pyOr_of_truthy _ h
  · subst h; rfl

theorem pyOr_self_of_or_null {v : JVal} (h : truthy v = true ∨ v = .null) :
    pyOr v .null = v := by
  rcases h with h | h
  · exact pyOr_of_truthy _ h
  · subst h; rfl

theorem aElems_jarr (l : List JVal) : aElems (jarr l) = l := by
  induction l with
  | nil => rfl
  | cons x r ih => simp [jarr, aElems, ih]

theorem asList_jarr (l : List JVal) : asList (jarr l) = l := by
  cases l with
  | nil => rfl
  | cons x r => simp [jarr, asList, aElems_jarr]

theorem matchPyNum_shape (o : Option PyNum) :
    (match o with | some q => JVal.f q | none => JVal.null) = JVal.null ∨
    ∃ q, (match o with | some q => JVal.f q | none => JVal.null) = JVal.f q := by
  cases o with
  | none => exact Or.inl rfl
  | some q => exact Or.inr ⟨q, rfl⟩

theorem coercePrice_shape (w : JVal) :
    coercePrice w = .null ∨ ∃ q, coercePrice w = .f q := by
  cases w with
  | null => exact Or.inl rfl
  | s t =>
    simp only [coercePrice]
    split
    · exact Or.inl rfl
    · exact matchPyNum_shape _
  | b x => exact matchPyNum_shape (pyFloatVal (.b x))
  | i n => exact matchPyNum_shape (pyFloatVal (.i n))
  | f q => exact matchPyNum_shape (pyFloatVal (.f q))
  | anil => exact matchPyNum_shape (pyFloatVal .anil)
  | acons hd tl => exact matchPyNum_shape (pyFloatVal (.acons hd tl))
  | onil => exact matchPyNum_shape (pyFloatVal .onil)
  | ocons k v tl => exact matchPyNum_shape (pyFloatVal (.ocons k v tl))

theorem coercePrice_idem (w : JVal) : coercePrice (coercePrice w) = coercePrice w := by
  rcases coercePrice_shape w with h | ⟨q, h⟩ <;> rw [h] <;> rfl

theorem coerceRating_shape (w : JVal) :
    coerceRating w = .null ∨ ∃ q, coerceRating w = .f q := by
  cases w with
  | null => exact Or.inl rfl
  | s t =>
    simp only [coerceRating]
    split
    · exact matchPyNum_shape _
    · exact matchPyNum_shape _
  | b x => exact matchPyNum_shape (pyFloatVal (.b x))
  | i n => exact matchPyNum_shape (pyFloatVal (.i n))
  | f q => exact matchPyNum_shape (pyFloatVal (.f q))
  | anil => exact matchPyNum_shape (pyFloatVal .anil)
  | acons hd tl => exact matchPyNum_shape (pyFloatVal (.acons hd tl))
  | onil => exact matchPyNum_shape (pyFloatVal .onil)
  | ocons k v tl => exact matchPyNum_shape (pyFloatVal (.ocons k v tl))

theorem coerceRating_idem (w : JVal) : coerceRating (coerceRating w) = coerceRating w := by
  rcases coerceRating_shape w with h | ⟨q, h⟩ <;> rw [h] <;> rfl

theorem TOE_pyOr (a : JVal) {b : JVal} (hb : TOE b) : TOE (pyOr a b) := by
  rcases pyOr_cases a b with ⟨ht, _⟩ | he
  · exact Or.inl ht
  · rw [he]; exact hb

theorem TON_pyOr (a : JVal) {b : JVal} (hb : TON b) : TON (pyOr a b) := by
  rcases pyOr_cases a b with ⟨ht, _⟩ | he
  · exact Or.inl ht
  · rw [he]; exact hb

theorem TOE_empty : TOE (.s "") := Or.inr rfl

theorem TON_null : TON .null := Or.inr rfl

theorem truthy_pyOr_last (a : JVal) {b : JVal} (hb : truthy b = true) :
    truthy (pyOr a b) = true := by
  rcases pyOr_cases a b with ⟨ht, _⟩ | he
  · exact ht
  · rw [he]; exact hb

theorem get_ocons (k1 : String) (v tl : JVal) (k2 : String) :
    JVal.get (.ocons k1 v tl) k2 = if k1 = k2 then v else JVal.get tl k2 := rfl

theorem hasKey_ocons (k1 : String) (v tl : JVal) (k2 : String) :
    JVal.hasKey (.ocons k1 v tl) k2 = if k1 = k2 then true else JVal.hasKey tl k2 := rfl

theorem hasKey_onil (k : String) : JVal.hasKey .onil k = false := rfl

theorem get_onil (k : String) : JVal.get .onil k = .null := rfl

/-- A segment dict in the exact shape `ensure_segment_fields` produces
is a fixed point of `ensure_segment_fields`. -/
theorem segObj_fixed (f1 f2 f3 f4 f5 f6 : JVal) (dur : Int) (c : JVal)
    (h1 : TOE f1) (h2 : TOE f2) (h3 : TOE f3) (h4 : TOE f4) (h5 : TOE f5) (h6 : TOE f6)
    (hc : TON c) :
    ensureSegmentFields (jobj [("fromIata", f1), ("toIata", f2), ("departISO", f3),
      ("arriveISO", f4), ("airline", f5), ("flightNumber", f6),
      ("durationMinutes", .i dur), ("cabin", c)]) =
    .ok (jobj [("fromIata", f1), ("toIata", f2), ("departISO", f3),
      ("arriveISO", f4), ("airline", f5), ("flightNumber", f6),
      ("durationMinutes", .i dur), ("cabin", c)]) := by
  rw [ensureSegmentFields]
  have hchain :
      pyIntVal (pyOr ((jobj [("fromIata", f1), ("toIata", f2), ("departISO", f3),
        ("arriveISO", f4), ("airline", f5), ("flightNumber", f6),
        ("durationMinutes", .i dur), ("cabin", c)]).get "durationMinutes")
        (pyOr ((jobj [("fromIata", f1), ("toIata", f2), ("departISO", f3),
        ("arriveISO", f4), ("airline", f5), ("flightNumber", f6),
        ("durationMinutes", .i dur), ("cabin", c)]).get "duration") (.i 0))) = .ok dur := by
    show pyIntVal (pyOr (.i dur) (pyOr .null (.i 0))) = .ok dur
    by_cases hd : dur = 0
    · subst hd; rfl
    · have ht : truthy (JVal.i dur) = true := by simp [truthy, hd]
      rw [pyOr_of_truthy _ ht]
      rfl
  rw [hchain]
  simp only [bind, Except.bind, Except.ok.injEq]
  show jobj [("fromIata", pyOr f1 (pyOr .null (.s ""))),
    ("toIata", pyOr f2 (pyOr .null (.s ""))),
    ("departISO", pyOr f3 (pyOr .null (.s ""))),
    ("arriveISO", pyOr f4 (pyOr .null (.s ""))),
    ("airline", pyOr f5 (.s "")),
    ("flightNumber", pyOr f6 (pyOr .null (.s ""))),
    ("durationMinutes", .i dur),
    ("cabin", pyOr c .null)] = _
  simp only [pyOr_null_left]
  rw [pyOr_self_of_or_empty h1, pyOr_self_of_or_empty h2, pyOr_self_of_or_empty h3,
      pyOr_self_of_or_empty h4, pyOr_self_of_or_empty h5, pyOr_self_of_or_empty h6,
      pyOr_self_of_or_null hc]

/-- `ensure_segment_fields` output is a dict and a fixed point. -/
theorem ensureSegmentFields_roundtrip (s r : JVal)
    (h : ensureSegmentFields s = .ok r) :
    isObj r = true ∧ ensureSegmentFields r = .ok r := by
  rcases hdur : pyIntVal (pyOr (s.get "durationMinutes") (pyOr (s.get "duration") (.i 0)))
    with msg | dur
  · rw [ensureSegmentFields, hdur] at h
    simp [bind, Except.bind] at h
  · rw [ensureSegmentFields, hdur] at h
    simp only [bind, Except.bind, Except.ok.injEq] at h
    subst h
    refine ⟨rfl, ?_⟩
    exact segObj_fixed _ _ _ _ _ _ dur _
      (TOE_pyOr _ (TOE_pyOr _ TOE_empty)) (TOE_pyOr _ (TOE_pyOr _ TOE_empty))
      (TOE_pyOr _ (TOE_pyOr _ TOE_empty)) (TOE_pyOr _ (TOE_pyOr _ TOE_empty))
      (TOE_pyOr _ TOE_empty) (TOE_pyOr _ (TOE_pyOr _ TOE_empty))
      (TON_pyOr _ TON_null)

theorem mapExcept_fixed (l : List JVal)
    (hl : ∀ st ∈ l, isObj st = true ∧ ensureSegmentFields st = .ok st) :
    mapExcept (fun st => ensureSegmentFields (if isObj st then st else .onil)) l = .ok l := by
  induction l with
  | nil => rfl
  | cons x r ih =>
    obtain ⟨hobj, hfix⟩ := hl x (by simp)
    have ihr := ih (fun st hst => hl st (by simp [hst]))
    simp [mapExcept, hobj, hfix, ihr, bind, Except.bind]

/-- A flight dict in the exact shape `coerce_flight` produces is a fixed
point of `coerce_flight`. -/
theorem flightObj_fixed (p cu pr bu : JVal) (segs : List JVal)
    (hp : truthy p = true)
    (hpr : coercePrice pr = pr)
    (hsegs : ∀ st ∈ segs, isObj st = true ∧ ensureSegmentFields st = .ok st) :
    coerceFlight (jobj [("provider", p), ("currency", cu), ("price", pr),
      ("segments", jarr segs), ("bookingUrl", bu)]) =
    .ok (jobj [("provider", p), ("currency", cu), ("price", pr),
      ("segments", jarr segs), ("bookingUrl", bu)]) := by
  have hmap := mapExcept_fixed segs hsegs
  have hseg : asList ((jobj [("provider", p), ("currency", cu), ("price", pr),
      ("segments", jarr segs), ("bookingUrl", bu)]).get "segments") = segs := by
    show asList (jarr segs) = segs
    exact asList_jarr segs
  rw [coerceFlight, if_neg (by simp [jobj, isObj])]
  simp only [hseg]
  cases segs with
  | nil =>
    simp [mapExcept, jobj, get_ocons, hasKey_ocons, hasKey_onil, segKeys, List.filter,
          truthy, pyOr_of_truthy _ hp, hpr, pure, Except.pure, bind, Except.bind, jarr]
  | cons st rest =>
    have hne : (st :: rest) ≠ ([] : List JVal) := by simp
    rw [if_neg hne, hmap]
    simp [jobj, get_ocons, pyOr_of_truthy _ hp, hpr, bind, Except.bind]


theorem mapExcept_mem (g : JVal → Except String JVal) (l out : List JVal)
    (h : mapExcept g l = .ok out) :
    ∀ y ∈ out, ∃ x, g x = .ok y := by
  induction l generalizing out with
  | nil =>
    simp only [mapExcept, Except.ok.injEq] at h
    subst h
    intro y hy
    simp at hy
  | cons x r ih =>
    rcases hx : g x with msg | y0
    · rw [mapExcept, hx] at h
      simp [bind, Except.bind] at h
    · rcases hr : mapExcept g r with msg | out0
      · rw [mapExcept, hx, hr] at h
        simp [bind, Except.bind] at h
      · rw [mapExcept, hx, hr] at h
        simp only [bind, Except.bind, Except.ok.injEq] at h
        subst h
        intro y hy
        rcases List.mem_cons.mp hy with hy | hy
        · exact ⟨x, by rw [hx, hy]⟩
        · exact ih out0 hr y hy

/-- A `coerce_flight` result, re-read through the outbound/inbound
`or`-chain of the second pass, coerces to itself. -/
theorem coerceFlight_roundtrip (v r : JVal) (h : coerceFlight v = .ok r) :
    coerceFlight (pyOr r .null) = .ok r := by
  by_cases hobj : isObj v = true
  · rw [coerceFlight, if_neg (by simp [hobj])] at h
    dsimp only at h
    generalize hSI : (if asList (v.get "segments") = [] then
        (if truthy ((segKeys.filter (fun k => v.hasKey k)).foldl
            (fun acc k => acc.setKey k (v.get k)) JVal.onil) then
          [(segKeys.filter (fun k => v.hasKey k)).foldl
            (fun acc k => acc.setKey k (v.get k)) JVal.onil] else [])
        else asList (v.get "segments")) = sIn at h
    rcases hm : mapExcept (fun st => ensureSegmentFields (if isObj st then st else .onil)) sIn
      with msg | segs
    · rw [hm] at h
      simp [bind, Except.bind] at h
    · rw [hm] at h
      simp only [bind, Except.bind, Except.ok.injEq] at h
      subst h
      have hr : truthy (jobj [("provider", pyOr (v.get "provider")
          (pyOr (v.get "airline") (.s "unknown"))),
          ("currency", v.get "currency"), ("price", coercePrice (v.get "price")),
          ("segments", jarr segs), ("bookingUrl", v.get "bookingUrl")]) = true := rfl
      rw [pyOr_of_truthy _ hr]
      refine flightObj_fixed _ _ _ _ _ ?_ ?_ ?_
      · exact truthy_pyOr_last _ (truthy_pyOr_last _ (by decide))
      · exact coercePrice_idem _
      · intro st hst
        obtain ⟨x, hx⟩ := mapExcept_mem _ _ _ hm st hst
        exact ensureSegmentFields_roundtrip _ _ hx
  · rw [coerceFlight, if_pos (by simp [hobj])] at h
    have : r = .null := by simpa using h.symm
    subst this
    rfl


/-- A hotel dict in the exact shape `coerce_hotel` produces is a fixed
point of `coerce_hotel`, provided its `priceTotal` is not a falsy
non-`None` value (a zero price is swallowed by the re-read `or`-chain). -/
theorem hotelObj_fixed (p nm addr ci co pt cu ra am ne bu : JVal)
    (hp : truthy p = true) (hnm : TOE nm) (hci : TOE ci) (hco : TOE co)
    (hpt : TON pt) (hptc : coercePrice pt = pt) (hra : coerceRating ra = ra) :
    coerceHotel (jobj [("provider", p), ("name", nm), ("address", addr),
      ("checkInISO", ci), ("checkOutISO", co), ("priceTotal", pt),
      ("currency", cu), ("rating", ra), ("amenities", am),
      ("neighborhood", ne), ("bookingUrl", bu)]) =
    jobj [("provider", p), ("name", nm), ("address", addr),
      ("checkInISO", ci), ("checkOutISO", co), ("priceTotal", pt),
      ("currency", cu), ("rating", ra), ("amenities", am),
      ("neighborhood", ne), ("bookingUrl", bu)] := by
  rw [coerceHotel, if_neg (by simp [jobj, isObj])]
  simp [jobj, get_ocons, get_onil]
  refine ⟨pyOr_of_truthy _ hp, ?_, ?_, ?_, ?_, ?_⟩
  · rw [pyOr_null_left, pyOr_self_of_or_empty hnm]
  · rw [pyOr_null_left, pyOr_self_of_or_empty hci]
  · rw [pyOr_null_left, pyOr_self_of_or_empty hco]
  · rw [pyOr_self_of_or_null hpt, hptc]
  · exact hra


/-- A `coerce_hotel` result that is a dict (not `None`) and whose
`priceTotal` is not a swallowed falsy value coerces to itself. -/
theorem coerceHotel_roundtrip (v r : JVal) (h : coerceHotel v = r)
    (hobj : isObj r = true) (hpt : TON (r.get "priceTotal")) :
    truthy r = true ∧ coerceHotel r = r := by
  by_cases hv : isObj v = true
  · rw [coerceHotel, if_neg (by simp [hv])] at h
    subst h
    refine ⟨rfl, ?_⟩
    exact hotelObj_fixed _ _ _ _ _ _ _ _ _ _ _
      (truthy_pyOr_last _ (by decide))
      (TOE_pyOr _ (TOE_pyOr _ TOE_empty))
      (TOE_pyOr _ (TOE_pyOr _ TOE_empty))
      (TOE_pyOr _ (TOE_pyOr _ TOE_empty))
      hpt (coercePrice_idem _) (coerceRating_idem _)
  · rw [coerceHotel, if_pos (by simp [hv])] at h
    subst h
    simp [isObj] at hobj


theorem lookup_snd_mem (l : List (String × String)) (k m : String)
    (h : l.lookup k = some m) : m ∈ l.map Prod.snd := by
  induction l with
  | nil => simp [List.lookup] at h
  | cons p r ih =>
    rw [List.lookup] at h
    cases hk : k == p.1
    · rw [hk] at h
      simp [ih h]
    · rw [hk] at h
      simp only [Option.some.injEq] at h
      subst h
      simp

/-- `coerce_block`'s string-label normalization always yields a
non-empty string that the normalization maps to itself. -/
theorem coerceLabelStr_spec (t : String) (ht : t ≠ "") :
    ∃ u, coerceLabelStr t = .s u ∧ u ≠ "" ∧ coerceLabelStr u = .s u := by
  rw [coerceLabelStr]
  rcases hlk : labelMap.lookup (pyStrip (lowerAscii t)) with _ | m
  · by_cases hb1 : t.toList.contains ':' ∧ t.toList.length ≤ 5
    · rw [if_pos hb1]
      rcases hp : parsePyInt (beforeFirst t ':') with _ | hour
      · exact ⟨"morning", rfl, by decide, by decide⟩
      · dsimp only
        by_cases h6 : hour < 6
        · rw [if_pos h6]; exact ⟨"late-night", rfl, by decide, by decide⟩
        · rw [if_neg h6]
          by_cases h12 : hour < 12
          · rw [if_pos h12]; exact ⟨"morning", rfl, by decide, by decide⟩
          · rw [if_neg h12]
            by_cases h18 : hour < 18
            · rw [if_pos h18]; exact ⟨"afternoon", rfl, by decide, by decide⟩
            · rw [if_neg h18]; exact ⟨"evening", rfl, by decide, by decide⟩
    · rw [if_neg hb1]
      by_cases hv : validLabels.contains (pyStrip (lowerAscii t))
      · rw [if_neg (by simp_all)]
        refine ⟨t, rfl, ht, ?_⟩
        rw [coerceLabelStr, hlk, if_neg hb1, if_neg (by simp_all)]
      · rw [if_pos (by simp_all)]
        exact ⟨"morning", rfl, by decide, by decide⟩
  · have hm := lookup_snd_mem _ _ _ hlk
    simp [labelMap] at hm
    rcases hm with h | h | h | h | h | h | h <;> subst h
    · exact ⟨"morning", rfl, by decide, by decide⟩
    · exact ⟨"afternoon", rfl, by decide, by decide⟩
    · exact ⟨"evening", rfl, by decide, by decide⟩
    · exact ⟨"late-night", rfl, by decide, by decide⟩
    · exact ⟨"check-in", rfl, by decide, by decide⟩
    · exact ⟨"check-out", rfl, by decide, by decide⟩
    · exact ⟨"transit", rfl, by decide, by decide⟩


theorem map_fixed (f : JVal → JVal) (l : List JVal) (h : ∀ x ∈ l, f x = x) :
    l.map f = l := by
  induction l with
  | nil => rfl
  | cons a t ih =>
    simp only [List.map_cons, h a (by simp)]
    rw [ih (fun x hx => h x (by simp [hx]))]

/-- `a or b or b` collapses to `a or b`. -/
theorem pyOr_absorb (a b : JVal) : pyOr (pyOr a b) b = pyOr a b := by
  simp only [pyOr]
  by_cases ha : truthy a = true <;> by_cases hb : truthy b = true <;>
    simp [ha, hb]

/-- A falsy result of `a or b` is the second operand. -/
theorem pyOr_eq_of_falsy_result (a b v : JVal) (h : pyOr a b = v)
    (hv : truthy v = false) : b = v := by
  by_cases ha : truthy a = true
  · rw [pyOr_of_truthy b ha] at h
    subst h
    simp [ha] at hv
  · rw [pyOr_of_falsy b (by simp_all)] at h
    exact h

/-- The `alternatives` / pricing-`notes` re-listing is stable:
`(list(x) or None)` round-trips through `list(... or None) or None`. -/
theorem alts_fix (l : List JVal) :
    pyOr (jarr (asList (pyOr (jarr l) .null))) .null = pyOr (jarr l) .null := by
  cases l with
  | nil => rfl
  | cons a t =>
    have h1 : pyOr (jarr (a :: t)) JVal.null = jarr (a :: t) := pyOr_of_truthy _ rfl
    rw [h1, asList_jarr]
    exact h1

theorem coerceBlockItem_of_keys (w : JVal) (hobj : isObj w = true)
    (h1 : w.hasKey "type" = true) (h2 : w.hasKey "data" = true) :
    coerceBlockItem w = w := by
  cases w <;> simp_all [coerceBlockItem, isObj]

theorem coerceBlockItem_keys (w : JVal) :
    isObj (coerceBlockItem w) = true ∧ (coerceBlockItem w).hasKey "type" = true ∧
      (coerceBlockItem w).hasKey "data" = true := by
  cases w with
  | ocons k v tl =>
    by_cases h : (JVal.ocons k v tl).hasKey "type" = true ∧
        (JVal.ocons k v tl).hasKey "data" = true
    · simp only [coerceBlockItem]
      rw [if_pos (show isObj (JVal.ocons k v tl) = true from rfl), if_pos h]
      exact ⟨rfl, h.1, h.2⟩
    · simp only [coerceBlockItem]
      rw [if_pos (show isObj (JVal.ocons k v tl) = true from rfl), if_neg h]
      exact ⟨rfl, rfl, rfl⟩
  | s t => exact ⟨rfl, rfl, rfl⟩
  | null => exact ⟨rfl, rfl, rfl⟩
  | b x => exact ⟨rfl, rfl, rfl⟩
  | i n => exact ⟨rfl, rfl, rfl⟩
  | f q => exact ⟨rfl, rfl, rfl⟩
  | anil => exact ⟨rfl, rfl, rfl⟩
  | acons hd tl => exact ⟨rfl, rfl, rfl⟩
  | onil => exact ⟨rfl, rfl, rfl⟩


theorem coerceBlockItem_idem (w : JVal) :
    coerceBlockItem (coerceBlockItem w) = coerceBlockItem w := by
  obtain ⟨h1, h2, h3⟩ := coerceBlockItem_keys w
  exact coerceBlockItem_of_keys _ h1 h2 h3

theorem blockObj_fixed (L nv : JVal) (items : List JVal)
    (hLt : truthy L = true)
    (hLfix : ∀ u, L = JVal.s u → coerceLabelStr u = JVal.s u)
    (hit : ∀ x ∈ items, coerceBlockItem x = x) :
    coerceBlock (jobj [("label", L), ("items", jarr items), ("notes", nv)]) =
      jobj [("label", L), ("items", jarr items), ("notes", nv)] := by
  rw [coerceBlock, if_neg (by simp [jobj, isObj])]
  simp [jobj, get_ocons, get_onil]
  rw [pyOr_of_truthy _ hLt, asList_jarr, map_fixed _ _ hit]
  refine ⟨?_, rfl⟩
  cases L with
  | s u => exact hLfix u rfl
  | null => rfl
  | b x => rfl
  | i n => rfl
  | f q => rfl
  | anil => rfl
  | acons hd tl => rfl
  | onil => rfl
  | ocons k v tl => rfl



/-- A `coerce_block` result that kept a `notes` key (i.e. came from a
dict) coerces to itself. -/
theorem coerceBlock_roundtrip (b r : JVal) (h : coerceBlock b = r)
    (hn : r.hasKey "notes" = true) : coerceBlock r = r := by
  by_cases hobj : isObj b = true
  · rw [coerceBlock, if_neg (by simp [hobj])] at h
    dsimp only at h
    generalize hl0 : pyOr (b.get "label") (pyOr (b.get "time") (JVal.s "morning")) = label0 at h
    have hl0t : truthy label0 = true := by
      rw [← hl0]
      exact truthy_pyOr_last _ (truthy_pyOr_last _ (by decide))
    obtain ⟨L, hL, hLt, hLfix⟩ :
        ∃ L, labelStep label0 = L ∧
          truthy L = true ∧ ∀ u, L = JVal.s u → coerceLabelStr u = JVal.s u := by
      cases label0 with
      | s t =>
        have ht : t ≠ "" := by
          intro he
          rw [he] at hl0t
          exact absurd hl0t (by decide)
        obtain ⟨u, hu, hu0, hufix⟩ := coerceLabelStr_spec t ht
        refine ⟨JVal.s u, hu, by simp [truthy, hu0], ?_⟩
        intro w hw
        cases hw
        exact hufix
      | null => exact absurd hl0t (by decide)
      | b x => exact ⟨_, rfl, hl0t, by intro u hu; cases hu⟩
      | i n => exact ⟨_, rfl, hl0t, by intro u hu; cases hu⟩
      | f q => exact ⟨_, rfl, hl0t, by intro u hu; cases hu⟩
      | anil => exact absurd hl0t (by decide)
      | acons hd tl => exact ⟨_, rfl, hl0t, by intro u hu; cases hu⟩
      | onil => exact absurd hl0t (by decide)
      | ocons k v tl => exact ⟨_, rfl, hl0t, by intro u hu; cases hu⟩
    rw [hL] at h
    subst h
    exact blockObj_fixed _ _ _ hLt hLfix (fun x hx => by
      obtain ⟨y, hy, hyx⟩ := List.mem_map.mp hx
      rw [← hyx]
      exact coerceBlockItem_idem y)
  · rw [coerceBlock, if_pos (by simp [hobj])] at h
    subst h
    exact absurd hn (by decide)


/-- Re-listing a constructed `blocks`/`days` array through the
`or`-default chain of `coerce_day` is stable. -/
theorem asList_or_chain_jarr (l : List JVal) :
    asList (pyOr (jarr l) (pyOr JVal.null JVal.null)) = l := by
  cases l with
  | nil => rfl
  | cons a t =>
    rw [pyOr_of_truthy _ (show truthy (jarr (a :: t)) = true from rfl)]
    exact asList_jarr _

theorem dayObj_fixed (dISO tips : JVal) (blocks : List JVal)
    (hdt : TOE dISO)
    (hb : ∀ x ∈ blocks, coerceBlock x = x) :
    coerceDay (jobj [("dateISO", dISO), ("blocks", jarr blocks), ("dailyTips", tips)]) =
      jobj [("dateISO", dISO), ("blocks", jarr blocks), ("dailyTips", tips)] := by
  rw [coerceDay, if_neg (by simp [jobj, isObj])]
  simp [jobj, get_ocons, get_onil]
  constructor
  · rw [pyOr_null_left, pyOr_self_of_or_empty hdt]
  · rw [asList_or_chain_jarr, map_fixed _ _ hb]

/-- A `coerce_day` result that kept a `dailyTips` key (i.e. came from a
dict) and whose blocks all kept their `notes` keys coerces to itself. -/
theorem coerceDay_roundtrip (d r : JVal) (h : coerceDay d = r)
    (ht : r.hasKey "dailyTips" = true)
    (hb : ∀ x ∈ asList (r.get "blocks"), x.hasKey "notes" = true) :
    coerceDay r = r := by
  by_cases hobj : isObj d = true
  · rw [coerceDay, if_neg (by simp [hobj])] at h
    dsimp only at h
    subst h
    apply dayObj_fixed
    · exact TOE_pyOr _ (TOE_pyOr _ TOE_empty)
    · intro x hx
      obtain ⟨y, hy, hyx⟩ := List.mem_map.mp hx
      refine coerceBlock_roundtrip y x (by rw [hyx]) ?_
      apply hb
      simp [jobj, get_ocons, get_onil, asList_jarr]
      exact ⟨y, hy, hyx⟩
  · rw [coerceDay, if_pos (by simp [hobj])] at h
    subst h
    exact absurd ht (by decide)


theorem isObj_weatherEntry (parsed w : JVal) : isObj (weatherEntry parsed w) = true := rfl

/-- The weather-normalization body is idempotent (for a fixed `parsed`). -/
theorem weatherEntry_idem (parsed w : JVal) :
    weatherEntry parsed (weatherEntry parsed w) = weatherEntry parsed w := by
  rw [weatherEntry, weatherEntry]
  simp [jobj, get_ocons, get_onil, getD]
  refine ⟨?_, ?_, ?_, ?_, ?_, ?_⟩
  · by_cases hd : truthy (pyOr (w.get "dateISO") (pyOr (w.get "date")
        (pyOr (parsed.get "startDateISO") (JVal.s "")))) = true
    · rw [pyOr_of_truthy _ hd]
    · simp only [Bool.not_eq_true] at hd
      have h1 := pyOr_eq_of_falsy_result _ _ _ rfl hd
      have h2 := pyOr_eq_of_falsy_result _ _ _ h1 hd
      rw [pyOr_of_falsy _ hd, pyOr_null_left]
      exact h2
  · exact pyOr_self_of_or_null (TON_pyOr _ (TON_pyOr _ TON_null))
  · exact pyOr_self_of_or_null (TON_pyOr _ (TON_pyOr _ TON_null))
  · exact pyOr_self_of_or_null (TON_pyOr _ (TON_pyOr _ TON_null))
  · exact pyOr_absorb _ _
  · rfl


theorem coerceConfidence_mem (v : JVal) :
    coerceConfidence v = "high" ∨ coerceConfidence v = "medium" ∨
      coerceConfidence v = "low" := by
  cases v with
  | i n =>
    rw [coerceConfidence]
    by_cases h75 : n ≥ 75
    · simp [h75]
    · by_cases h50 : n ≥ 50 <;> simp [h75, h50]
  | f q =>
    rw [coerceConfidence]
    by_cases h75 : q.geInt 75 = true
    · simp [h75]
    · by_cases h50 : q.geInt 50 = true <;> simp [h75, h50]
  | b x => cases x <;> simp [coerceConfidence]
  | s t =>
    rw [coerceConfidence]
    by_cases hc : lowerAscii t = "low" ∨ lowerAscii t = "medium" ∨ lowerAscii t = "high"
    · rw [if_pos hc]
      tauto
    · rw [if_neg hc]
      tauto
  | null => simp [coerceConfidence]
  | anil => simp [coerceConfidence]
  | acons hd tl => simp [coerceConfidence]
  | onil => simp [coerceConfidence]
  | ocons k w tl => simp [coerceConfidence]

theorem coerceConfidence_idem (v : JVal) :
    coerceConfidence (JVal.s (coerceConfidence v)) = coerceConfidence v := by
  rcases coerceConfidence_mem v with h | h | h <;> rw [h] <;> decide

theorem coerceSources_idem (v : JVal) :
    coerceSources (coerceSources v) = coerceSources v := by
  by_cases h : truthy v = true ∧ isArr v = true ∧ headIsStr (aElems v) = true
  · have hv : coerceSources v =
        jarr ((aElems v).map (fun x => jobj [("provider", x)])) := by
      rw [coerceSources, if_pos h]
    rcases he : aElems v with _ | ⟨a, rest⟩
    · exact absurd (he ▸ h.2.2) (by decide)
    · rw [hv, he, coerceSources, if_neg ?hc]
      case hc =>
        rintro ⟨-, -, hh⟩
        rw [aElems_jarr, List.map_cons] at hh
        have hf : headIsStr ((jobj [("provider", a)]) ::
            rest.map (fun x => jobj [("provider", x)])) = false := rfl
        rw [hf] at hh
        cases hh
  · have hv : coerceSources v = v := by rw [coerceSources, if_neg h]
    rw [hv, hv]

/-- The `sources` field of the metadata block is stable under the second
pass. -/
theorem sources_fix (s0 : JVal) :
    pyOr (coerceSources (pyOr (coerceSources s0) JVal.anil)) JVal.anil =
      pyOr (coerceSources s0) JVal.anil := by
  by_cases h : truthy (coerceSources s0) = true
  · rw [pyOr_of_truthy _ h, coerceSources_idem, pyOr_of_truthy _ h]
  · simp only [Bool.not_eq_true] at h
    rw [pyOr_of_falsy _ h]
    rfl


theorem normalizeCityName_ok_of_strOrFalsy (v : JVal) (h : strOrFalsy v = true) :
    ∃ t, normalizeCityName v = .ok t := by
  cases v with
  | s t =>
    have hs : normalizeCityName (JVal.s t) =
        if ¬ truthy (JVal.s t) = true then Except.ok "" else
          Except.ok ((cityTranslations.lookup (lowerAscii (pyStrip t))).getD (pyStrip t)) := rfl
    by_cases ht : truthy (JVal.s t) = true
    · refine ⟨(cityTranslations.lookup (lowerAscii (pyStrip t))).getD (pyStrip t), ?_⟩
      rw [hs, if_neg (by simp [ht])]
    · refine ⟨"", ?_⟩
      rw [hs, if_pos (by simp_all)]
  | null => exact ⟨"", rfl⟩
  | b x =>
    cases x with
    | false => exact ⟨"", rfl⟩
    | true => exact absurd h (by decide)
  | i n =>
    by_cases hn : n = 0
    · subst hn
      exact ⟨"", rfl⟩
    · rw [strOrFalsy] at h
      simp [truthy, hn, isStr] at h
  | f q =>
    by_cases hq : q.num = 0
    · refine ⟨"", ?_⟩
      have hs : normalizeCityName (JVal.f q) =
          if ¬ truthy (JVal.f q) = true then Except.ok "" else
            Except.error "AttributeError: strip on non-string city name" := rfl
      rw [hs, if_pos (by simp [truthy, hq])]
    · rw [strOrFalsy] at h
      simp [truthy, hq, isStr] at h
  | anil => exact ⟨"", rfl⟩
  | acons hd tl =>
    have hf : strOrFalsy (JVal.acons hd tl) = false := rfl
    rw [hf] at h
    cases h
  | onil => exact ⟨"", rfl⟩
  | ocons k w tl =>
    have hf : strOrFalsy (JVal.ocons k w tl) = false := rfl
    rw [hf] at h
    cases h

theorem hasKey_setKey_append (j : JVal) (k : String) (v : JVal)
    (he : endsOnil j = true) : (j.setKey k v).hasKey k = true := by
  induction j with
  | ocons k1 v1 tl ihv ihtl =>
    by_cases hk : k1 = k
    · rw [JVal.setKey, if_pos hk, JVal.hasKey, if_pos hk]
    · rw [JVal.setKey, if_neg hk, JVal.hasKey, if_neg hk]
      exact ihtl he
  | onil => rw [JVal.setKey, JVal.hasKey, if_pos rfl]
  | null => exact absurd he (by decide)
  | b x => cases x <;> exact absurd he (by decide)
  | i n =>
    have : endsOnil (JVal.i n) = false := rfl
    rw [this] at he
    cases he
  | f q =>
    have : endsOnil (JVal.f q) = false := rfl
    rw [this] at he
    cases he
  | s t =>
    have : endsOnil (JVal.s t) = false := rfl
    rw [this] at he
    cases he
  | anil => exact absurd he (by decide)
  | acons hd tl ihh iht =>
    have : endsOnil (JVal.acons hd tl) = false := rfl
    rw [this] at he
    cases he

theorem setKey_id_of_bad (j : JVal) (k : String) (v : JVal)
    (he : endsOnil j = false) (h : j.hasKey k = false) : j.setKey k v = j := by
  induction j with
  | ocons k1 v1 tl ihv ihtl =>
    by_cases hk : k1 = k
    · rw [JVal.hasKey, if_pos hk] at h
      cases h
    · rw [JVal.hasKey, if_neg hk] at h
      rw [JVal.setKey, if_neg hk, ihtl he h]
  | onil => cases he
  | null => rfl
  | b x => rfl
  | i n => rfl
  | f q => rfl
  | s t => rfl
  | anil => rfl
  | acons hd tl ihh iht => rfl

theorem endsOnil_setKey (j : JVal) (k : String) (v : JVal)
    (he : endsOnil j = false) : endsOnil (j.setKey k v) = false := by
  induction j with
  | ocons k1 v1 tl ihv ihtl =>
    by_cases hk : k1 = k
    · rw [JVal.setKey, if_pos hk]
      exact he
    · rw [JVal.setKey, if_neg hk]
      exact ihtl he
  | onil => cases he
  | null => rfl
  | b x => rfl
  | i n => rfl
  | f q => rfl
  | s t => rfl
  | anil => rfl
  | acons hd tl ihh iht => rfl

theorem hasKey_setKey_mono (j : JVal) (k k2 : String) (v : JVal)
    (h : j.hasKey k = true) : (j.setKey k2 v).hasKey k = true := by
  induction j with
  | ocons k1 v1 tl ihv ihtl =>
    by_cases hk2 : k1 = k2
    · rw [JVal.setKey, if_pos hk2]
      by_cases hk : k1 = k
      · rw [JVal.hasKey, if_pos hk]
      · rw [JVal.hasKey, if_neg hk]
        rw [JVal.hasKey, if_neg hk] at h
        exact h
    · rw [JVal.setKey, if_neg hk2]
      by_cases hk : k1 = k
      · rw [JVal.hasKey, if_pos hk]
      · rw [JVal.hasKey, if_neg hk]
        rw [JVal.hasKey, if_neg hk] at h
        exact ihtl h
  | onil => cases h
  | null => cases h
  | b x => cases h
  | i n => cases h
  | f q => cases h
  | s t => cases h
  | anil => cases h
  | acons hd tl ihh iht => cases h

theorem setdefault_of_sdStable (j : JVal) (k : String) (w : JVal)
    (h : sdStable j k = true) : j.setdefault k w = j := by
  rw [JVal.setdefault]
  by_cases hk : j.hasKey k = true
  · rw [if_pos hk]
  · rw [if_neg hk]
    rw [sdStable] at h
    simp [hk] at h
    exact setKey_id_of_bad _ _ _ (by simp [h]) (by simp [hk])

theorem sdStable_setdefault_self (j : JVal) (k : String) (v : JVal) :
    sdStable (j.setdefault k v) k = true := by
  rw [JVal.setdefault]
  by_cases hk : j.hasKey k = true
  · rw [if_pos hk, sdStable, hk, Bool.true_or]
  · rw [if_neg hk]
    by_cases he : endsOnil j = true
    · rw [sdStable, hasKey_setKey_append _ _ _ he, Bool.true_or]
    · rw [sdStable, endsOnil_setKey _ _ _ (by simp_all)]
      simp

theorem sdStable_setdefault_mono (j : JVal) (k k2 : String) (u : JVal)
    (h : sdStable j k = true) : sdStable (j.setdefault k2 u) k = true := by
  rw [JVal.setdefault]
  by_cases hk2 : j.hasKey k2 = true
  · rw [if_pos hk2]
    exact h
  · rw [if_neg hk2]
    rw [sdStable] at h ⊢
    simp only [Bool.or_eq_true] at h
    rcases h with hl | hr
    · rw [hasKey_setKey_mono _ _ _ _ hl, Bool.true_or]
    · rw [endsOnil_setKey _ _ _ (by simp_all)]
      simp

theorem isObj_setdefault (j : JVal) (k : String) (v : JVal)
    (h : isObj j = true) : isObj (j.setdefault k v) = true := by
  rw [JVal.setdefault]
  by_cases hk : j.hasKey k = true
  · rw [if_pos hk]
    exact h
  · rw [if_neg hk]
    cases j with
    | ocons k1 v1 tl =>
      by_cases hk1 : k1 = k
      · rw [JVal.setKey, if_pos hk1]
        rfl
      · rw [JVal.setKey, if_neg hk1]
        rfl
    | onil => rfl
    | null => cases h
    | b x => cases h
    | i n => cases h
    | f q => cases h
    | s t => cases h
    | anil => cases h
    | acons hd tl => cases h

theorem pyOr_onil_self (p : JVal) (h : isObj p = true) : pyOr p JVal.onil = p := by
  cases p with
  | ocons k v tl => exact pyOr_of_truthy _ rfl
  | onil => rfl
  | null => cases h
  | b x => cases h
  | i n => cases h
  | f q => cases h
  | s t => cases h
  | anil => cases h
  | acons hd tl => cases h


theorem get_jobj_cons (k1 : String) (v : JVal) (r : List (String × JVal)) (k : String) :
    (jobj ((k1, v) :: r)).get k = if k1 = k then v else (jobj r).get k := rfl

theorem get_jobj_nil (k : String) : (jobj []).get k = .null := rfl

theorem truthy_jobj_cons (k1 : String) (v : JVal) (r : List (String × JVal)) :
    truthy (jobj ((k1, v) :: r)) = true := rfl

theorem isObj_jobj_cons (k1 : String) (v : JVal) (r : List (String × JVal)) :
    isObj (jobj ((k1, v) :: r)) = true := rfl

/-- The main fixed-point lemma: an output of `normalize_to_contract`
whose components satisfy the stability conditions normalizes to itself. -/
theorem topObj_fixed (now2 : String)
    (raw parsed S outb inb falt sel lalt cur BD TE pnotes gati srcs td wn ro pid : JVal)
    (conf : String) (lp ic wl dl : List JVal)
    (hraw : pyOr raw (JVal.s "") = raw)
    (hparsedObj : isObj parsed = true)
    (hsdOC : sdStable parsed "originCity" = true)
    (hsdDC : sdStable parsed "destinationCity" = true)
    (hsdSD : sdStable parsed "startDateISO" = true)
    (hsdED : sdStable parsed "endDateISO" = true)
    (hsdN : sdStable parsed "nights" = true)
    (hsdA : sdStable parsed "adults" = true)
    (horig : ∃ t, normalizeCityName (pyOr (parsed.get "from")
      (pyOr (parsed.get "originCity") (pyOr (parsed.get "origin") (JVal.s "")))) = .ok t)
    (hdest : ∃ t, normalizeCityName (pyOr (parsed.get "to")
      (pyOr (parsed.get "destinationCity") (pyOr (parsed.get "destination") (JVal.s "")))) = .ok t)
    (hS : pyOr S (JVal.s "") = S)
    (houtb : coerceFlight (pyOr outb JVal.null) = .ok outb)
    (hinb : coerceFlight (pyOr inb JVal.null) = .ok inb)
    (hfalt : pyOr (jarr (asList falt)) JVal.null = falt)
    (hselt : truthy sel = true)
    (hselfix : coerceHotel sel = sel)
    (hlalt : pyOr (jarr (asList lalt)) JVal.null = lalt)
    (hwl : ∀ w ∈ wl, isObj w = true ∧ weatherEntry parsed w = w)
    (hdl : ∀ d ∈ dl, coerceDay d = d)
    (hcur : truthy cur = true)
    (hBD : coerceBreakdown (jobj [("currency", cur), ("breakdown", BD),
      ("totalEstimated", TE), ("confidence", JVal.s conf), ("notes", pnotes)]) = BD)
    (hTE : coerceTotalEstimated (jobj [("currency", cur), ("breakdown", BD),
      ("totalEstimated", TE), ("confidence", JVal.s conf), ("notes", pnotes)]) = TE)
    (hconf : coerceConfidence (JVal.s conf) = conf)
    (hpn : pyOr (jarr (asList pnotes)) JVal.null = pnotes)
    (hgati : truthy gati = true)
    (hsrcs : pyOr (coerceSources srcs) JVal.anil = srcs)
    (htd : pyOr td JVal.anil = td)
    (hwn : pyOr wn JVal.anil = wn)
    (hro : pyOr ro JVal.null = ro)
    (hpid : truthy pid = true) :
    normalizeToContract now2
      (jobj [("query", jobj [("raw", raw), ("parsed", parsed)]),
        ("summary", S),
        ("flights", jobj [("outbound", outb), ("inbound", inb), ("alternatives", falt)]),
        ("lodging", jobj [("selected", sel), ("alternatives", lalt)]),
        ("transport", jobj [("localPasses", jarr lp), ("intercity", jarr ic)]),
        ("weather", jarr wl),
        ("days", jarr dl),
        ("pricing", jobj [("currency", cur), ("breakdown", BD),
          ("totalEstimated", TE), ("confidence", JVal.s conf), ("notes", pnotes)]),
        ("metadata", jobj [("generatedAtISO", gati), ("sources", srcs),
          ("toolDiagnostics", td), ("warnings", wn), ("revisionOf", ro),
          ("planId", pid)])]) =
    .ok (jobj [("query", jobj [("raw", raw), ("parsed", parsed)]),
        ("summary", S),
        ("flights", jobj [("outbound", outb), ("inbound", inb), ("alternatives", falt)]),
        ("lodging", jobj [("selected", sel), ("alternatives", lalt)]),
        ("transport", jobj [("localPasses", jarr lp), ("intercity", jarr ic)]),
        ("weather", jarr wl),
        ("days", jarr dl),
        ("pricing", jobj [("currency", cur), ("breakdown", BD),
          ("totalEstimated", TE), ("confidence", JVal.s conf), ("notes", pnotes)]),
        ("metadata", jobj [("generatedAtISO", gati), ("sources", srcs),
          ("toolDiagnostics", td), ("warnings", wn), ("revisionOf", ro),
          ("planId", pid)])]) := by
  obtain ⟨oc2, hoc⟩ := horig
  obtain ⟨dc2, hdc⟩ := hdest
  have hwfilter : wl.filter isObj = wl :=
    List.filter_eq_self.mpr (fun w hw => (hwl w hw).1)
  have hwmap : wl.map (weatherEntry parsed) = wl :=
    map_fixed _ _ (fun w hw => (hwl w hw).2)
  have hdmap : dl.map coerceDay = dl := map_fixed _ _ hdl
  rw [normalizeToContract]
  simp [get_jobj_cons, get_jobj_nil, truthy_jobj_cons, isObj_jobj_cons,
    pyOr_null_left, pyOr_of_truthy _ (truthy_jobj_cons _ _ _),
    hparsedObj, pyOr_onil_self _ hparsedObj,
    setdefault_of_sdStable _ _ _ hsdOC, setdefault_of_sdStable _ _ _ hsdDC,
    setdefault_of_sdStable _ _ _ hsdSD, setdefault_of_sdStable _ _ _ hsdED,
    setdefault_of_sdStable _ _ _ hsdN, setdefault_of_sdStable _ _ _ hsdA,
    hoc, hdc, houtb, hinb, bind, Except.bind, asList_jarr,
    hfalt, hlalt, pyOr_of_truthy _ hselt, hselfix, hwfilter, hwmap, hdmap,
    pyOr_of_truthy _ hcur, hBD, hTE, hconf, hpn,
    pyOr_of_truthy _ hgati, hsrcs, htd, hwn, hro, pyOr_of_truthy _ hpid,
    hraw, hS]


theorem coerceHotel_shape (v : JVal) :
    coerceHotel v = .null ∨ isObj (coerceHotel v) = true := by
  by_cases hv : isObj v = true
  · right
    rw [coerceHotel, if_neg (by simp [hv])]
    rfl
  · left
    rw [coerceHotel, if_pos (by simp [hv])]

theorem isObj_ite_onil (p : JVal) :
    isObj (if isObj p = true then p else JVal.onil) = true := by
  by_cases h : isObj p = true
  · rw [if_pos h]
    exact h
  · rw [if_neg h]
    rfl

/-- C9 (amended): `normalize_to_contract` is idempotent on those of its
outputs that satisfy the decidable `idemOK` side condition -- every day
and block of the output came from a dict, a hotel was selected with a
non-falsy-or-None `priceTotal`, the pricing fields are stable under
re-coercion, and the parsed city fields re-normalize without raising.
(Unconditional idempotence is refuted by
`normalize_to_contract_not_idempotent`.) -/
theorem normalize_to_contract_idempotent_on_stable_outputs
    (now1 now2 : String) (x y : JVal) (hn : now1 ≠ "")
    (h : normalizeToContract now1 x = .ok y) (hok : idemOK y = true) :
    normalizeToContract now2 y = .ok y := by
  rw [normalizeToContract] at h
  simp only [bind, Except.bind] at h
  split at h
  · exact absurd h (by simp)
  · rename_i oc hoc
    split at h
    · exact absurd h (by simp)
    · rename_i dc hdc
      split at h
      · exact absurd h (by simp)
      · rename_i outb houtb
        split at h
        · exact absurd h (by simp)
        · rename_i inb hinb
          simp only [Except.ok.injEq] at h
          subst h
          simp only [idemOK] at hok
          simp [get_jobj_cons, get_jobj_nil, asList_jarr, Bool.and_eq_true,
            decide_eq_true_iff] at hok
          obtain ⟨⟨⟨⟨⟨⟨hdays, hseltB⟩, hptB⟩, hbdB⟩, hteB⟩, horigB⟩, hdestB⟩ := hok
          apply topObj_fixed
          · exact pyOr_self_of_or_empty (TOE_pyOr _ (TOE_pyOr _ TOE_empty))
          · exact isObj_setdefault _ _ _ (isObj_setdefault _ _ _ (isObj_setdefault _ _ _
              (isObj_setdefault _ _ _ (isObj_setdefault _ _ _ (isObj_setdefault _ _ _
                (isObj_ite_onil _))))))
          · exact sdStable_setdefault_mono _ _ _ _ (sdStable_setdefault_mono _ _ _ _
              (sdStable_setdefault_mono _ _ _ _ (sdStable_setdefault_mono _ _ _ _
                (sdStable_setdefault_mono _ _ _ _ (sdStable_setdefault_self _ _ _)))))
          · exact sdStable_setdefault_mono _ _ _ _ (sdStable_setdefault_mono _ _ _ _
              (sdStable_setdefault_mono _ _ _ _ (sdStable_setdefault_mono _ _ _ _
                (sdStable_setdefault_self _ _ _))))
          · exact sdStable_setdefault_mono _ _ _ _ (sdStable_setdefault_mono _ _ _ _
              (sdStable_setdefault_mono _ _ _ _ (sdStable_setdefault_self _ _ _)))
          · exact sdStable_setdefault_mono _ _ _ _ (sdStable_setdefault_mono _ _ _ _
              (sdStable_setdefault_self _ _ _))
          · exact sdStable_setdefault_mono _ _ _ _ (sdStable_setdefault_self _ _ _)
          · exact sdStable_setdefault_self _ _ _
          · exact normalizeCityName_ok_of_strOrFalsy _ horigB
          · exact normalizeCityName_ok_of_strOrFalsy _ hdestB
          · exact pyOr_self_of_or_empty (TOE_pyOr _ (TOE_pyOr _ TOE_empty))
          · exact coerceFlight_roundtrip _ _ houtb
          · exact coerceFlight_roundtrip _ _ hinb
          · exact alts_fix _
          · exact hseltB
          · rcases coerceHotel_shape (pyOr (JVal.get (if isObj (pyOr (x.get "lodging")
              (pyOr (x.get "hotel") .onil)) = true then pyOr (x.get "lodging")
              (pyOr (x.get "hotel") .onil) else .onil) "selected") (if isObj (pyOr (x.get "lodging")
              (pyOr (x.get "hotel") .onil)) = true then pyOr (x.get "lodging")
              (pyOr (x.get "hotel") .onil) else .onil)) with hnull | hobj
            · rw [hnull] at hseltB
              exact absurd hseltB (by decide)
            · exact (coerceHotel_roundtrip _ _ rfl hobj (by
                rcases hptB with hb | hb
                · exact Or.inl hb
                · exact Or.inr hb)).2
          · exact alts_fix _
          · intro w hw
            obtain ⟨w0, hw0, hww⟩ := List.mem_map.mp hw
            refine ⟨?_, ?_⟩
            · rw [← hww]
              exact isObj_weatherEntry _ _
            · rw [← hww]
              exact weatherEntry_idem _ _
          · intro d hd
            obtain ⟨d0, hd0, hdd⟩ := List.mem_map.mp hd
            obtain ⟨hdt, hbn⟩ := hdays d0 hd0
            rw [hdd] at hdt hbn
            exact coerceDay_roundtrip d0 d hdd hdt hbn
          · exact truthy_pyOr_last _ (truthy_pyOr_last _ (by decide))
          · exact hbdB
          · exact hteB
          · exact coerceConfidence_idem _
          · exact alts_fix _
          · exact truthy_pyOr_last _ (by simp [truthy]; exact hn)
          · exact sources_fix _
          · exact pyOr_absorb _ _
          · exact pyOr_absorb _ _
          · exact pyOr_absorb _ _
          · exact truthy_pyOr_last _ (by simp [truthy]; exact hn)

/-- C9 witness: a concrete run.  The sample input normalizes to
`idemSampleOutput`, which satisfies `idemOK`, and a second pass (at a
different timestamp) returns it unchanged. -/
theorem normalize_to_contract_idempotent_on_stable_outputs_witness :
    idemOK idemSampleOutput = true ∧
      normalizeToContract "2026-02-02T00:00:00Z" idemSampleOutput =
        .ok idemSampleOutput :=
  ⟨by rfl,
    normalize_to_contract_idempotent_on_stable_outputs
      "2025-01-01T00:00:00Z" "2026-02-02T00:00:00Z"
      idemSampleInput idemSampleOutput (by decide) (by rfl) (by rfl)⟩

/-- C9 counterexample: `normalize_to_contract` is not idempotent on all
of its outputs.  A day whose `blocks` list holds a bare string yields a
block dict without a `notes` key; the second pass adds `notes`, so the
result differs from its input (both passes succeed). -/
theorem normalize_to_contract_not_idempotent :
    ((normalizeToContract "T" (jobj [("days", jarr [jobj
        [("blocks", jarr [JVal.s "x"])]])])).bind
      (fun y => (normalizeToContract "T" y).map (fun z => decide (z = y)))
        = .ok false) ∧
    ((normalizeToContract "T" (jobj [("days", jarr [jobj
        [("blocks", jarr [JVal.s "x"])]])])).map
      (fun y => ((asList (((asList (y.get "days")).headD JVal.null).get
        "blocks")).headD JVal.null).hasKey "notes") = .ok false) ∧
    ((normalizeToContract "T" (jobj [("days", jarr [jobj
        [("blocks", jarr [JVal.s "x"])]])])).bind
      (fun y => (normalizeToContract "T" y).map
        (fun z => ((asList (((asList (z.get "days")).headD JVal.null).get
          "blocks")).headD JVal.null).hasKey "notes")) = .ok true) :=
  ⟨rfl, rfl, rfl⟩

end Planner
